import Mathlib

/-!
Shallow embedding of `src/vector.h`: a growable sequence container
(`Vector<T>`) layered over a raw-storage owner (`RawMemory<T>`).

Modelling choices, fixed throughout:

* A storage block of capacity `n` is a list of `n` slots, each slot either
  `some v` (a constructed element of value `v`) or `none` (uninitialized
  raw memory).  `operator new(n * sizeof(T))` yields `List.replicate n none`;
  placement-new writes `some v` into a slot; `std::destroy_at` writes `none`.
* Machine integers (`size_t`) are `Nat`; the sizes involved never overflow
  in the scenarios of interest, and the source performs no wrapping
  arithmetic on them.
* Element values are an arbitrary type `α`.  Move construction and move
  assignment are modelled value-preservingly (the destination receives the
  source's value and the source keeps it), which is exact for trivially
  copyable element types; moves are modelled as non-throwing, matching the
  `is_nothrow_move_constructible` types for which the container selects the
  move path.  The in-place insert path (`EmplaceMove`) is the one place in
  the source that reads a moved-from slot again before destroying it, so
  that path is additionally modelled under explicit move semantics
  (`MoveSem`, `Vector.EmplaceD`); the two models agree for value-preserving
  moves (`EmplaceD_id`), and the explicit model exhibits the loss of the
  last element's value for destructively-moving element types.
* Element operations that may throw (copy construction, direct construction
  from arguments, value construction, copy assignment) are driven by a
  failure oracle `fails : Nat → Bool` consulted at a running construction
  counter, mirroring test element types that throw on the k-th construction.
  A thrown C++ exception is an `Except.error`; the error payload carries the
  state of the `Vector` object after stack unwinding and all `catch`-block
  cleanup of the source have run.
* The instrumentation record `Ctr` counts fallible element operations
  (`cnt`, consulted by the oracle) and, separately, copy constructions and
  move constructions performed by the storage-transfer loops, so that the
  move-versus-copy transfer policy is observable.
-/

namespace CppVec

/-- One storage block: a list of slots; `none` is uninitialized raw memory,
`some v` is a live element of value `v`. -/
abbrev Buf (α : Type) := List (Option α)

/-- Read slot `i` of a buffer (out-of-range reads yield `none`, i.e.
uninitialized memory; in-range behaviour is what the theorems use). -/
def slotGet : Buf α → Nat → Option α
  | [], _ => none
  | x :: _, 0 => x
  | _ :: xs, n + 1 => slotGet xs n

/-- Write slot `i` of a buffer (out-of-range writes are dropped; all writes
performed by the model are in range whenever the source's preconditions
hold). -/
def slotSet : Buf α → Nat → Option α → Buf α
  | [], _, _ => []
  | _ :: xs, 0, v => v :: xs
  | x :: xs, n + 1, v => x :: slotSet xs n v

theorem length_slotSet (b : Buf α) (i : Nat) (v : Option α) :
    (slotSet b i v).length = b.length := by
  induction b generalizing i with
  | nil => rfl
  | cons x xs ih =>
    cases i with
    | zero => rfl
    | succ n => simp [slotSet, ih]

theorem slotGet_slotSet_self (b : Buf α) (i : Nat) (v : Option α)
    (h : i < b.length) : slotGet (slotSet b i v) i = v := by
  induction b generalizing i with
  | nil => simp at h
  | cons x xs ih =>
    cases i with
    | zero => rfl
    | succ n =>
      simp only [List.length_cons, Nat.succ_lt_succ_iff] at h
      exact ih n h

theorem slotGet_slotSet_ne (b : Buf α) (i j : Nat) (v : Option α)
    (h : i ≠ j) : slotGet (slotSet b i v) j = slotGet b j := by
  induction b generalizing i j with
  | nil => rfl
  | cons x xs ih =>
    cases i with
    | zero =>
      cases j with
      | zero => exact absurd rfl h
      | succ m => rfl
    | succ n =>
      cases j with
      | zero => rfl
      | succ m => exact ih n m (fun hh => h (by rw [hh]))

theorem slotGet_replicate (n i : Nat) :
    slotGet (List.replicate n (none : Option α)) i = none := by
  induction n generalizing i with
  | zero => cases i <;> rfl
  | succ m ih =>
    cases i with
    | zero => rfl
    | succ k => exact ih k

theorem slotGet_ge_length (b : Buf α) (i : Nat) (h : b.length ≤ i) :
    slotGet b i = none := by
  induction b generalizing i with
  | nil => rfl
  | cons x xs ih =>
    cases i with
    | zero => simp at h
    | succ n => exact ih n (by simpa using h)

/-- Instrumentation threaded through every element operation: `cnt` is the
running count of fallible element operations (the failure oracle is consulted
at it), `copies` counts copy constructions and `moves` counts move
constructions performed by the storage-transfer loops. -/
structure Ctr where
  cnt : Nat
  copies : Nat
  moves : Nat
deriving DecidableEq, Repr

/-- Compile-time traits of the element type `T` that drive the
`if constexpr` transfer-policy branches of the source. -/
structure TraitFlags where
  nothrowMoveConstructible : Bool
  copyConstructible : Bool
deriving DecidableEq, Repr

/-- The condition of the source's `if constexpr` branches:
`std::is_nothrow_move_constructible_v<T> || !std::is_copy_constructible_v<T>`. -/
def usesMovePath (tf : TraitFlags) : Bool :=
  tf.nothrowMoveConstructible || !tf.copyConstructible

/-- Direct construction of an element from forwarded arguments
(`new (p) T(std::forward<Args>(args)...)`): may throw; counts as one
fallible operation, neither a copy nor a move construction. -/
def constructElem (fails : Nat → Bool) (c : Ctr) (v : α) : Option α × Ctr :=
  if fails c.cnt then (none, { c with cnt := c.cnt + 1 })
  else (some v, { c with cnt := c.cnt + 1 })

/-- Model of `std::uninitialized_copy_n(src + s0, n, dst + d0)`: copies `n`
elements left to right into uninitialized slots; a successful copy
construction is recorded in the `copies` counter; if one throws, the
elements this call already constructed are destroyed (the standard
rollback) and the exception propagates with the rolled-back destination
buffer.  Reading an uninitialized source slot (impossible under the
container's invariant) transfers the uninitialized state. -/
def uninitializedCopyN (fails : Nat → Bool) (src : Buf α) (s0 : Nat) :
    Buf α → Nat → Nat → Ctr → Except (Buf α × Ctr) (Buf α × Ctr)
  | dst, _, 0, c => .ok (dst, c)
  | dst, d0, n + 1, c =>
    match slotGet src s0 with
    | some v =>
      if fails c.cnt then .error (dst, { c with cnt := c.cnt + 1 })
      else
        match uninitializedCopyN fails src (s0 + 1) (slotSet dst d0 (some v)) (d0 + 1) n
            { c with cnt := c.cnt + 1, copies := c.copies + 1 } with
        | .ok r => .ok r
        | .error (db, c2) => .error (slotSet db d0 none, c2)
    | none =>
      match uninitializedCopyN fails src (s0 + 1) (slotSet dst d0 none) (d0 + 1) n c with
      | .ok r => .ok r
      | .error (db, c2) => .error (slotSet db d0 none, c2)

/-- Model of `std::uninitialized_move_n(src + s0, n, dst + d0)`: moves `n`
elements left to right into uninitialized slots, each recorded in the
`moves` counter.  Used by the container only when the element's move
construction cannot throw (or no copy exists), so it is modelled as
infallible; moved-from sources retain their value. -/
def uninitializedMoveN (src : Buf α) (s0 : Nat) :
    Buf α → Nat → Nat → Ctr → Buf α × Ctr
  | dst, _, 0, c => (dst, c)
  | dst, d0, n + 1, c =>
    match slotGet src s0 with
    | some v =>
      uninitializedMoveN src (s0 + 1) (slotSet dst d0 (some v)) (d0 + 1) n
        { c with cnt := c.cnt + 1, moves := c.moves + 1 }
    | none => uninitializedMoveN src (s0 + 1) (slotSet dst d0 none) (d0 + 1) n c

/-- Model of `std::uninitialized_value_construct_n(dst + d0, n)`: value
constructs `n` elements of default value `dflt` left to right; on a throw
the standard rollback destroys the elements this call constructed. -/
def uninitializedValueConstructN (fails : Nat → Bool) (dflt : α) :
    Buf α → Nat → Nat → Ctr → Except (Buf α × Ctr) (Buf α × Ctr)
  | dst, _, 0, c => .ok (dst, c)
  | dst, d0, n + 1, c =>
    if fails c.cnt then .error (dst, { c with cnt := c.cnt + 1 })
    else
      match uninitializedValueConstructN fails dflt (slotSet dst d0 (some dflt)) (d0 + 1) n
          { c with cnt := c.cnt + 1 } with
      | .ok r => .ok r
      | .error (db, c2) => .error (slotSet db d0 none, c2)

/-- Model of `std::copy_n(src + s0, n, dst + d0)` over live slots: element
copy assignments left to right; a throwing assignment propagates with no
rollback (`std::copy_n` performs none).  Copy assignment counts as a
fallible operation but not as a copy construction. -/
def copyAssignN (fails : Nat → Bool) (src : Buf α) (s0 : Nat) :
    Buf α → Nat → Nat → Ctr → Except (Buf α × Ctr) (Buf α × Ctr)
  | dst, _, 0, c => .ok (dst, c)
  | dst, d0, n + 1, c =>
    match slotGet src s0 with
    | some v =>
      if fails c.cnt then .error (dst, { c with cnt := c.cnt + 1 })
      else copyAssignN fails src (s0 + 1) (slotSet dst d0 (some v)) (d0 + 1) n
        { c with cnt := c.cnt + 1 }
    | none => copyAssignN fails src (s0 + 1) (slotSet dst d0 none) (d0 + 1) n c

/-- Model of `std::destroy_n(b + start, n)`: destroys `n` live elements,
returning their slots to the uninitialized state. -/
def destroyN : Buf α → Nat → Nat → Buf α
  | b, _, 0 => b
  | b, start, n + 1 => destroyN (slotSet b start none) (start + 1) n

/-- Model of `std::move_backward(b + index, b + index + n, b + index + n + 1)`:
move-assigns slot `j` into slot `j + 1` for `j` from `index + n - 1` down to
`index` (right to left, so no source is overwritten before it is read).
Move assignment is modelled value-preserving and non-throwing. -/
def moveBackwardShift : Buf α → Nat → Nat → Buf α
  | b, _, 0 => b
  | b, index, n + 1 =>
    moveBackwardShift (slotSet b (index + n + 1) (slotGet b (index + n))) index n

/-- Model of `std::move(b + dst + 1, b + dst + 1 + n, b + dst)`: move-assigns
each of the `n` slots after `dst` one slot to the left, left to right.
Move assignment is modelled value-preserving and non-throwing. -/
def moveForwardShift : Buf α → Nat → Nat → Buf α
  | b, _, 0 => b
  | b, dst, n + 1 =>
    moveForwardShift (slotSet b dst (slotGet b (dst + 1))) (dst + 1) n

/-- The raw-storage owner `RawMemory<T>`: a block of `capacity` slots of
uninitialized memory; it never constructs or destroys elements itself. -/
structure RawMemory (α : Type) where
  buffer : Buf α
deriving DecidableEq, Repr

/-- Model of `RawMemory(size_t capacity)` / `Allocate`: a fresh block of
`n` uninitialized slots. -/
def RawMemory.allocate (n : Nat) : RawMemory α := ⟨List.replicate n none⟩

/-- Model of `RawMemory::Capacity()`. -/
def RawMemory.Capacity (m : RawMemory α) : Nat := m.buffer.length

/-- The container `Vector<T>`: one storage owner plus the count of live
elements. -/
structure Vector (α : Type) where
  data : RawMemory α
  size : Nat
deriving DecidableEq, Repr

/-- Model of `Vector::Size()`. -/
def Vector.Size (v : Vector α) : Nat := v.size

/-- Model of `Vector::Capacity()` (`data_.Capacity()`). -/
def Vector.Capacity (v : Vector α) : Nat := v.data.Capacity

/-- Model of the defaulted constructor `Vector()`: null storage, size 0. -/
def Vector.default : Vector α := ⟨⟨[]⟩, 0⟩

/-- Model of `Vector::Swap` (swaps storage and size of the two objects;
returns the pair (new value of `*this`, new value of `other`)). -/
def Vector.Swap (a b : Vector α) : Vector α × Vector α :=
  (⟨b.data, b.size⟩, ⟨a.data, a.size⟩)

/-- Model of `Vector(size_t size)`: allocates `size` slots and value
constructs `size` elements; a throw during construction destroys the object
(the error carries only the instrumentation). -/
def Vector.sizedCtor (fails : Nat → Bool) (dflt : α) (n : Nat) (c : Ctr) :
    Except Ctr (Vector α × Ctr) :=
  match uninitializedValueConstructN fails dflt (RawMemory.allocate n).buffer 0 n c with
  | .error (_, c1) => .error c1
  | .ok (b, c1) => .ok (⟨⟨b⟩, n⟩, c1)

/-- Model of the copy constructor `Vector(const Vector&)`: allocates exactly
`other.size_` slots and copy constructs the live elements. -/
def Vector.copyCtor (fails : Nat → Bool) (other : Vector α) (c : Ctr) :
    Except Ctr (Vector α × Ctr) :=
  match uninitializedCopyN fails other.data.buffer 0
      (RawMemory.allocate other.size).buffer 0 other.size c with
  | .error (_, c1) => .error c1
  | .ok (b, c1) => .ok (⟨⟨b⟩, other.size⟩, c1)

/-- Model of the move constructor `Vector(Vector&&)`: the new object is
default constructed and then swapped with `other`; returns
(the new object, `other` after the transfer). -/
def Vector.moveCtor (other : Vector α) : Vector α × Vector α :=
  Vector.Swap Vector.default other

/-- Model of `Vector::operator=(Vector&&)`: `Swap(rhs)`; returns
(the new value of `*this`, `rhs` after the transfer). -/
def Vector.moveAssign (this rhs : Vector α) : Vector α × Vector α :=
  Vector.Swap this rhs

/-- Model of `Vector::operator=(const Vector&)`.  `samePtr` models the
`this != &rhs` identity test (when it is true the arguments are the same
object, so `this = rhs` as values and nothing is done).  The three branches
mirror the source: copy-and-swap when `rhs.size_ > data_.Capacity()`,
otherwise storage reuse with either tail destruction or tail copy
construction followed by the prefix copy assignment; `size_` is written
last.  Error payloads carry `*this` after unwinding. -/
def Vector.assignCopy (fails : Nat → Bool) (samePtr : Bool)
    (this rhs : Vector α) (c : Ctr) :
    Except (Vector α × Ctr) (Vector α × Ctr) :=
  if samePtr then .ok (this, c)
  else if this.data.Capacity < rhs.size then
    match Vector.copyCtor fails rhs c with
    | .error c1 => .error (this, c1)
    | .ok (rhsCopy, c1) => .ok ((Vector.Swap this rhsCopy).1, c1)
  else if rhs.size ≤ this.size then
    match copyAssignN fails rhs.data.buffer 0
        (destroyN this.data.buffer rhs.size (this.size - rhs.size)) 0 rhs.size c with
    | .error (b, c1) => .error (⟨⟨b⟩, this.size⟩, c1)
    | .ok (b, c1) => .ok (⟨⟨b⟩, rhs.size⟩, c1)
  else
    match uninitializedCopyN fails rhs.data.buffer this.size
        this.data.buffer this.size (rhs.size - this.size) c with
    | .error (b, c1) => .error (⟨⟨b⟩, this.size⟩, c1)
    | .ok (b1, c1) =>
      match copyAssignN fails rhs.data.buffer 0 b1 0 this.size c1 with
      | .error (b, c2) => .error (⟨⟨b⟩, this.size⟩, c2)
      | .ok (b2, c2) => .ok (⟨⟨b2⟩, rhs.size⟩, c2)

/-- Model of `Vector::MoveOrCopyData`: `if constexpr` selects the move
transfer when the element's move construction cannot throw or no copy
constructor exists, and the copy transfer otherwise. -/
def Vector.MoveOrCopyData (tf : TraitFlags) (fails : Nat → Bool)
    (src dst : Buf α) (size : Nat) (c : Ctr) :
    Except (Buf α × Ctr) (Buf α × Ctr) :=
  if usesMovePath tf then .ok (uninitializedMoveN src 0 dst 0 size c)
  else uninitializedCopyN fails src 0 dst 0 size c

/-- Model of `Vector::Reserve`: no-op when `new_capacity <= Capacity()`;
otherwise allocates `new_capacity` slots, transfers the live elements, then
destroys the old elements and swaps storage.  A throw in the copy transfer
is rolled back by `uninitialized_copy_n` and the new block is discarded, so
the error payload is the unchanged object. -/
def Vector.Reserve (tf : TraitFlags) (fails : Nat → Bool)
    (vec : Vector α) (newCapacity : Nat) (c : Ctr) :
    Except (Vector α × Ctr) (Vector α × Ctr) :=
  if newCapacity ≤ vec.Capacity then .ok (vec, c)
  else
    match Vector.MoveOrCopyData tf fails vec.data.buffer
        (RawMemory.allocate newCapacity).buffer vec.size c with
    | .error (_, c1) => .error (vec, c1)
    | .ok (nb, c1) => .ok (⟨⟨nb⟩, vec.size⟩, c1)

/-- Model of `Vector::Resize`: shrink destroys `[new_size, size_)`; grow
reserves then value constructs `[size_, new_size)`; `size_ = new_size`
executes only if nothing threw. -/
def Vector.Resize (tf : TraitFlags) (fails : Nat → Bool) (dflt : α)
    (vec : Vector α) (newSize : Nat) (c : Ctr) :
    Except (Vector α × Ctr) (Vector α × Ctr) :=
  if newSize < vec.size then
    .ok (⟨⟨destroyN vec.data.buffer newSize (vec.size - newSize)⟩, newSize⟩, c)
  else
    match Vector.Reserve tf fails vec newSize c with
    | .error e => .error e
    | .ok (v1, c1) =>
      match uninitializedValueConstructN fails dflt v1.data.buffer vec.size
          (newSize - vec.size) c1 with
      | .error (b, c2) => .error (⟨⟨b⟩, vec.size⟩, c2)
      | .ok (b, c2) => .ok (⟨⟨b⟩, newSize⟩, c2)

/-- Model of `Vector::EmplaceBack`.  At full capacity: allocate
`size_ == 0 ? 1 : size_ * 2` slots, construct the new element first at slot
`size_` of the new block, then transfer, destroy the old elements and swap;
a throw anywhere before the swap leaves the object unchanged.  With spare
capacity: construct in place at slot `size_` (a throw constructs nothing).
`++size_` runs last. -/
def Vector.EmplaceBack (tf : TraitFlags) (fails : Nat → Bool)
    (vec : Vector α) (v : α) (c : Ctr) :
    Except (Vector α × Ctr) (Vector α × Ctr) :=
  if vec.size = vec.Capacity then
    match constructElem fails c v with
    | (none, c1) => .error (vec, c1)
    | (some x, c1) =>
      match Vector.MoveOrCopyData tf fails vec.data.buffer
          (slotSet (RawMemory.allocate (if vec.size = 0 then 1 else vec.size * 2)).buffer
            vec.size (some x)) vec.size c1 with
      | .error (_, c2) => .error (vec, c2)
      | .ok (nb, c2) => .ok (⟨⟨nb⟩, vec.size + 1⟩, c2)
  else
    match constructElem fails c v with
    | (none, c1) => .error (vec, c1)
    | (some x, c1) => .ok (⟨⟨slotSet vec.data.buffer vec.size (some x)⟩, vec.size + 1⟩, c1)

/-- Model of `Vector::PushBack` (both overloads delegate to `EmplaceBack`). -/
def Vector.PushBack (tf : TraitFlags) (fails : Nat → Bool)
    (vec : Vector α) (v : α) (c : Ctr) :
    Except (Vector α × Ctr) (Vector α × Ctr) :=
  Vector.EmplaceBack tf fails vec v c

/-- Model of `Vector::PopBack`: destroys the last live element and
decrements `size_`. -/
def Vector.PopBack (vec : Vector α) : Vector α :=
  ⟨⟨slotSet vec.data.buffer (vec.size - 1) none⟩, vec.size - 1⟩

/-- Model of `Vector::EmplaceRealloc` (positional emplace with
reallocation): allocate the doubled block, construct the new element first
at its target index, transfer the prefix `[0, index)` and then the suffix
`[index, size_)` one slot later; each fallible copy transfer is guarded by a
`catch` that destroys what the new block already holds before rethrowing, so
every error leaves the object unchanged.  The source's two `if constexpr`
blocks share one condition and are modelled as one branch. -/
def Vector.EmplaceRealloc (tf : TraitFlags) (fails : Nat → Bool)
    (vec : Vector α) (index : Nat) (v : α) (c : Ctr) :
    Except (Vector α × Ctr) (Vector α × Ctr) :=
  match constructElem fails c v with
  | (none, c1) => .error (vec, c1)
  | (some x, c1) =>
    let nb0 : Buf α :=
      slotSet (RawMemory.allocate (if vec.size = 0 then 1 else vec.size * 2)).buffer
        index (some x)
    if usesMovePath tf then
      match uninitializedMoveN vec.data.buffer 0 nb0 0 index c1 with
      | (nb1, c2) =>
        match uninitializedMoveN vec.data.buffer index nb1 (index + 1) (vec.size - index) c2 with
        | (nb2, c3) => .ok (⟨⟨nb2⟩, vec.size + 1⟩, c3)
    else
      match uninitializedCopyN fails vec.data.buffer 0 nb0 0 index c1 with
      | .error (_, c2) => .error (vec, c2)
      | .ok (nb1, c2) =>
        match uninitializedCopyN fails vec.data.buffer index nb1 (index + 1)
            (vec.size - index) c2 with
        | .error (_, c3) => .error (vec, c3)
        | .ok (nb2, c3) => .ok (⟨⟨nb2⟩, vec.size + 1⟩, c3)

/-- The buffer produced by the shifting phase of `Vector::EmplaceMove` on a
non-empty vector: move-construct the last element into the trailing slot
(`new (data_ + size_) T(std::move(*(begin() + size_ - 1)))`), shift
`[index_, size_)` one slot right via `move_backward`, destroy the vacated
slot `index_`.  The source's `move_backward` range includes the slot
`size_ - 1` that was just moved from, so this value-preserving model is
exact only for move semantics that keep the source's value; the general
model is `emplaceMoveShiftD`. -/
def emplaceMoveShift (vec : Vector α) (index : Nat) : Buf α :=
  slotSet
    (moveBackwardShift
      (slotSet vec.data.buffer vec.size (slotGet vec.data.buffer (vec.size - 1)))
      index (vec.size - index))
    index none

/-- Instrumentation of the move construction of the last element performed
by `EmplaceMove` on a non-empty vector (the shift's move assignments are
modelled non-throwing and are not constructions, so only this one move is
recorded). -/
def emplaceMoveCtr (vec : Vector α) (c : Ctr) : Ctr :=
  match slotGet vec.data.buffer (vec.size - 1) with
  | some _ => { c with cnt := c.cnt + 1, moves := c.moves + 1 }
  | none => c

/-- Model of `Vector::EmplaceMove` (positional emplace with spare capacity):
if non-empty, run the shifting phase (`emplaceMoveShift`); then construct
the new element at `index`.  The shift is modelled non-throwing (its `catch`
cleanup is dead code in this model); a throw in the final construction
leaves the already-shifted buffer with the old `size_`, exactly as in the
source. -/
def Vector.EmplaceMove (fails : Nat → Bool)
    (vec : Vector α) (index : Nat) (v : α) (c : Ctr) :
    Except (Vector α × Ctr) (Vector α × Ctr) :=
  let preBuf : Buf α := if vec.size ≠ 0 then emplaceMoveShift vec index else vec.data.buffer
  let preCtr : Ctr := if vec.size ≠ 0 then emplaceMoveCtr vec c else c
  match constructElem fails preCtr v with
  | (none, c2) => .error (⟨⟨preBuf⟩, vec.size⟩, c2)
  | (some x, c2) => .ok (⟨⟨slotSet preBuf index (some x)⟩, vec.size + 1⟩, c2)

/-- Model of `Vector::Emplace`: dispatches on `size_ == Capacity()`. -/
def Vector.Emplace (tf : TraitFlags) (fails : Nat → Bool)
    (vec : Vector α) (index : Nat) (v : α) (c : Ctr) :
    Except (Vector α × Ctr) (Vector α × Ctr) :=
  if vec.size = vec.Capacity then Vector.EmplaceRealloc tf fails vec index v c
  else Vector.EmplaceMove fails vec index v c

/-- Move semantics of an element type: `remnant v` is the value a source
object holds after it has been moved from.  For trivially copyable types
`remnant v = v`; for a type like `std::unique_ptr` the moved-from object is
null, so `remnant` is a constant.  The value-preserving model used elsewhere
is the `remnant v = v` instance; the in-place insert path is the one place
in the source where a moved-from slot is read again before being destroyed,
so it is also modelled under an arbitrary `MoveSem`. -/
structure MoveSem (α : Type) where
  remnant : α → α

/-- Model of `std::move_backward(b + index, b + index + n, b + index + n + 1)`
under explicit move semantics: right to left, each move assignment writes
the source slot's current value into the slot to its right and leaves the
source slot holding its remnant. -/
def moveBackwardShiftD (ms : MoveSem α) : Buf α → Nat → Nat → Buf α
  | b, _, 0 => b
  | b, index, n + 1 =>
    let b1 := slotSet b (index + n + 1) (slotGet b (index + n))
    let b2 :=
      match slotGet b (index + n) with
      | some v => slotSet b1 (index + n) (some (ms.remnant v))
      | none => b1
    moveBackwardShiftD ms b2 index n

/-- The shifting phase of `Vector::EmplaceMove` under explicit move
semantics: move-construct the last element into the trailing slot (the slot
`size_ - 1` is left holding its remnant), run `move_backward` over exactly
the source's range `[index_, size_)` — which includes the slot just moved
from — then destroy slot `index_`.  Because of that range, the first move
assignment overwrites the freshly constructed trailing slot with the
moved-from slot `size_ - 1`: the last element's value survives only when
`remnant` preserves it. -/
def emplaceMoveShiftD (ms : MoveSem α) (vec : Vector α) (index : Nat) : Buf α :=
  let b0 := slotSet vec.data.buffer vec.size (slotGet vec.data.buffer (vec.size - 1))
  let b1 :=
    match slotGet vec.data.buffer (vec.size - 1) with
    | some v => slotSet b0 (vec.size - 1) (some (ms.remnant v))
    | none => b0
  slotSet (moveBackwardShiftD ms b1 index (vec.size - index)) index none

/-- Model of `Vector::EmplaceMove` under explicit move semantics (same
structure as `Vector.EmplaceMove`, whose shift assumes value-preserving
moves). -/
def Vector.EmplaceMoveD (ms : MoveSem α) (fails : Nat → Bool)
    (vec : Vector α) (index : Nat) (v : α) (c : Ctr) :
    Except (Vector α × Ctr) (Vector α × Ctr) :=
  let preBuf : Buf α :=
    if vec.size ≠ 0 then emplaceMoveShiftD ms vec index else vec.data.buffer
  let preCtr : Ctr := if vec.size ≠ 0 then emplaceMoveCtr vec c else c
  match constructElem fails preCtr v with
  | (none, c2) => .error (⟨⟨preBuf⟩, vec.size⟩, c2)
  | (some x, c2) => .ok (⟨⟨slotSet preBuf index (some x)⟩, vec.size + 1⟩, c2)

/-- Model of `Vector::Emplace` under explicit move semantics.  The
reallocation path is the unchanged `EmplaceRealloc`: there every moved-from
slot lives in the old storage, which is destroyed without being read again,
so the value-preserving model of that path is exact under every move
semantics. -/
def Vector.EmplaceD (ms : MoveSem α) (tf : TraitFlags) (fails : Nat → Bool)
    (vec : Vector α) (index : Nat) (v : α) (c : Ctr) :
    Except (Vector α × Ctr) (Vector α × Ctr) :=
  if vec.size = vec.Capacity then Vector.EmplaceRealloc tf fails vec index v c
  else Vector.EmplaceMoveD ms fails vec index v c

/-- Model of `Vector::Insert` (both overloads delegate to `Emplace`). -/
def Vector.Insert (tf : TraitFlags) (fails : Nat → Bool)
    (vec : Vector α) (index : Nat) (v : α) (c : Ctr) :
    Except (Vector α × Ctr) (Vector α × Ctr) :=
  Vector.Emplace tf fails vec index v c

/-- Model of `Vector::Erase`: move-assigns `[pos + 1, size_)` one slot left,
then `PopBack`. -/
def Vector.Erase (vec : Vector α) (pos : Nat) : Vector α :=
  Vector.PopBack ⟨⟨moveForwardShift vec.data.buffer pos (vec.size - pos - 1)⟩, vec.size⟩

/-- Folding `EmplaceBack` over a list of values (the spec's "sequence of
`n` appends"), stopping at the first thrown error. -/
def appendAll (tf : TraitFlags) (fails : Nat → Bool) :
    Vector α → List α → Ctr → Except (Vector α × Ctr) (Vector α × Ctr)
  | vec, [], c => .ok (vec, c)
  | vec, x :: rest, c =>
    match Vector.EmplaceBack tf fails vec x c with
    | .error e => .error e
    | .ok (v1, c1) => appendAll tf fails v1 rest c1

/-- The failure oracle of an element type whose operations never throw. -/
def noFail : Nat → Bool := fun _ => false

theorem uninitializedCopyN_ok_spec (fails : Nat → Bool) (src : Buf α) :
    ∀ (n : Nat) (dst : Buf α) (s0 d0 : Nat) (c : Ctr) (d' : Buf α) (c' : Ctr),
    uninitializedCopyN fails src s0 dst d0 n c = .ok (d', c') →
    d'.length = dst.length ∧
    (∀ i, i < d0 ∨ d0 + n ≤ i → slotGet d' i = slotGet dst i) ∧
    (d0 + n ≤ dst.length → ∀ k, k < n → slotGet d' (d0 + k) = slotGet src (s0 + k)) := by
  intro n
  induction n with
  | zero =>
    intro dst s0 d0 c d' c' h
    simp only [uninitializedCopyN, Except.ok.injEq, Prod.mk.injEq] at h
    obtain ⟨h1, -⟩ := h
    subst h1
    refine ⟨rfl, fun i _ => rfl, fun _ k hk => absurd hk (Nat.not_lt_zero k)⟩
  | succ m ih =>
    intro dst s0 d0 c d' c' h
    have step : ∀ (w : Option α) (c1 : Ctr),
        uninitializedCopyN fails src (s0 + 1) (slotSet dst d0 w) (d0 + 1) m c1 = .ok (d', c') →
        slotGet src s0 = w →
        d'.length = dst.length ∧
        (∀ i, i < d0 ∨ d0 + (m + 1) ≤ i → slotGet d' i = slotGet dst i) ∧
        (d0 + (m + 1) ≤ dst.length → ∀ k, k < m + 1 →
          slotGet d' (d0 + k) = slotGet src (s0 + k)) := by
      intro w c1 hrec hw
      obtain ⟨l1, l2, l3⟩ := ih (slotSet dst d0 w) (s0 + 1) (d0 + 1) c1 d' c' hrec
      refine ⟨l1.trans (length_slotSet ..), ?_, ?_⟩
      · intro i hi
        have : slotGet d' i = slotGet (slotSet dst d0 w) i := l2 i (by omega)
        rw [this, slotGet_slotSet_ne dst d0 i w (by omega)]
      · intro hlen k hk
        have hlen' : d0 + 1 + m ≤ (slotSet dst d0 w).length := by
          rw [length_slotSet]; omega
        cases k with
        | zero =>
          have : slotGet d' (d0 + 0) = slotGet (slotSet dst d0 w) d0 := l2 d0 (by omega)
          rw [this, slotGet_slotSet_self dst d0 w (by omega)]
          simpa using hw.symm
        | succ j =>
          have := l3 hlen' j (by omega)
          have e1 : d0 + 1 + j = d0 + (j + 1) := by omega
          have e2 : s0 + 1 + j = s0 + (j + 1) := by omega
          rw [e1, e2] at this
          exact this
    simp only [uninitializedCopyN] at h
    split at h
    next v hs =>
      split at h
      next => exact absurd h (by simp)
      next hf =>
        split at h
        next r hrec =>
          simp only [Except.ok.injEq] at h
          exact step (some v) _ (by rw [hrec, h]) hs
        next db c2 hrec => exact absurd h (by simp)
    next hs =>
      split at h
      next r hrec =>
        simp only [Except.ok.injEq] at h
        exact step none c (by rw [hrec, h]) hs
      next db c2 hrec => exact absurd h (by simp)

theorem uninitializedCopyN_error_len (fails : Nat → Bool) (src : Buf α) :
    ∀ (n : Nat) (dst : Buf α) (s0 d0 : Nat) (c : Ctr) (b : Buf α) (c' : Ctr),
    uninitializedCopyN fails src s0 dst d0 n c = .error (b, c') →
    b.length = dst.length := by
  intro n
  induction n with
  | zero =>
    intro dst s0 d0 c b c' h
    simp [uninitializedCopyN] at h
  | succ m ih =>
    intro dst s0 d0 c b c' h
    simp only [uninitializedCopyN] at h
    split at h
    next v hs =>
      split at h
      next =>
        simp only [Except.error.injEq, Prod.mk.injEq] at h
        rw [← h.1]
      next hf =>
        split at h
        next r hrec => exact absurd h (by simp)
        next db c2 hrec =>
          simp only [Except.error.injEq, Prod.mk.injEq] at h
          rw [← h.1, length_slotSet, ih _ _ _ _ _ _ hrec, length_slotSet]
    next hs =>
      split at h
      next r hrec => exact absurd h (by simp)
      next db c2 hrec =>
        simp only [Except.error.injEq, Prod.mk.injEq] at h
        rw [← h.1, length_slotSet, ih _ _ _ _ _ _ hrec, length_slotSet]

theorem uninitializedMoveN_spec (src : Buf α) :
    ∀ (n : Nat) (dst : Buf α) (s0 d0 : Nat) (c : Ctr),
    (uninitializedMoveN src s0 dst d0 n c).1.length = dst.length ∧
    (∀ i, i < d0 ∨ d0 + n ≤ i →
      slotGet (uninitializedMoveN src s0 dst d0 n c).1 i = slotGet dst i) ∧
    (d0 + n ≤ dst.length → ∀ k, k < n →
      slotGet (uninitializedMoveN src s0 dst d0 n c).1 (d0 + k) = slotGet src (s0 + k)) := by
  intro n
  induction n with
  | zero =>
    intro dst s0 d0 c
    exact ⟨rfl, fun i _ => rfl, fun _ k hk => absurd hk (Nat.not_lt_zero k)⟩
  | succ m ih =>
    intro dst s0 d0 c
    have step : ∀ (w : Option α) (c1 : Ctr), slotGet src s0 = w →
        (uninitializedMoveN src (s0 + 1) (slotSet dst d0 w) (d0 + 1) m c1).1.length = dst.length ∧
        (∀ i, i < d0 ∨ d0 + (m + 1) ≤ i →
          slotGet (uninitializedMoveN src (s0 + 1) (slotSet dst d0 w) (d0 + 1) m c1).1 i =
            slotGet dst i) ∧
        (d0 + (m + 1) ≤ dst.length → ∀ k, k < m + 1 →
          slotGet (uninitializedMoveN src (s0 + 1) (slotSet dst d0 w) (d0 + 1) m c1).1 (d0 + k) =
            slotGet src (s0 + k)) := by
      intro w c1 hw
      obtain ⟨l1, l2, l3⟩ := ih (slotSet dst d0 w) (s0 + 1) (d0 + 1) c1
      refine ⟨l1.trans (length_slotSet ..), ?_, ?_⟩
      · intro i hi
        rw [l2 i (by omega), slotGet_slotSet_ne dst d0 i w (by omega)]
      · intro hlen k hk
        have hlen' : d0 + 1 + m ≤ (slotSet dst d0 w).length := by
          rw [length_slotSet]; omega
        cases k with
        | zero =>
          have h0 := l2 d0 (by omega)
          simp only [Nat.add_zero]
          rw [h0, slotGet_slotSet_self dst d0 w (by omega)]
          exact hw.symm
        | succ j =>
          have := l3 hlen' j (by omega)
          have e1 : d0 + 1 + j = d0 + (j + 1) := by omega
          have e2 : s0 + 1 + j = s0 + (j + 1) := by omega
          rw [e1, e2] at this
          exact this
    cases hs : slotGet src s0 with
    | some v =>
      simp only [uninitializedMoveN, hs]
      exact step (some v) _ hs
    | none =>
      simp only [uninitializedMoveN, hs]
      exact step none c hs

theorem uninitializedMoveN_ctr (src : Buf α) :
    ∀ (n : Nat) (dst : Buf α) (s0 d0 : Nat) (c : Ctr),
    (∀ k, k < n → (slotGet src (s0 + k)).isSome = true) →
    (uninitializedMoveN src s0 dst d0 n c).2 = ⟨c.cnt + n, c.copies, c.moves + n⟩ := by
  intro n
  induction n with
  | zero =>
    intro dst s0 d0 c _
    simp [uninitializedMoveN]
  | succ m ih =>
    intro dst s0 d0 c hlive
    obtain ⟨v, hs⟩ := Option.isSome_iff_exists.mp (by simpa using hlive 0 (Nat.succ_pos m))
    simp only [uninitializedMoveN, hs]
    rw [ih (slotSet dst d0 (some v)) (s0 + 1) (d0 + 1) _
      (fun k hk => by
        have := hlive (k + 1) (by omega)
        rwa [show s0 + (k + 1) = s0 + 1 + k from by omega] at this)]
    simp only [Ctr.mk.injEq]
    refine ⟨?_, ?_, ?_⟩ <;> first | trivial | omega

theorem uninitializedCopyN_ok_ctr (fails : Nat → Bool) (src : Buf α) :
    ∀ (n : Nat) (dst : Buf α) (s0 d0 : Nat) (c : Ctr) (d' : Buf α) (c' : Ctr),
    uninitializedCopyN fails src s0 dst d0 n c = .ok (d', c') →
    (∀ k, k < n → (slotGet src (s0 + k)).isSome = true) →
    c' = ⟨c.cnt + n, c.copies + n, c.moves⟩ := by
  intro n
  induction n with
  | zero =>
    intro dst s0 d0 c d' c' h _
    simp only [uninitializedCopyN, Except.ok.injEq, Prod.mk.injEq] at h
    rw [← h.2]
    cases c; rfl
  | succ m ih =>
    intro dst s0 d0 c d' c' h hlive
    obtain ⟨v, hs⟩ := Option.isSome_iff_exists.mp (by simpa using hlive 0 (Nat.succ_pos m))
    simp only [uninitializedCopyN, hs] at h
    split at h
    next => exact absurd h (by simp)
    next hf =>
      split at h
      next r hrec =>
        simp only [Except.ok.injEq] at h
        rw [h] at hrec
        rw [ih _ _ _ _ _ _ hrec
          (fun k hk => by
            have := hlive (k + 1) (by omega)
            rwa [show s0 + (k + 1) = s0 + 1 + k from by omega] at this)]
        simp only [Ctr.mk.injEq]
        refine ⟨?_, ?_, ?_⟩ <;> first | trivial | omega
      next db c2 hrec => exact absurd h (by simp)

theorem uninitializedValueConstructN_ok_spec (fails : Nat → Bool) (dflt : α) :
    ∀ (n : Nat) (dst : Buf α) (d0 : Nat) (c : Ctr) (d' : Buf α) (c' : Ctr),
    uninitializedValueConstructN fails dflt dst d0 n c = .ok (d', c') →
    d'.length = dst.length ∧
    (∀ i, i < d0 ∨ d0 + n ≤ i → slotGet d' i = slotGet dst i) ∧
    (d0 + n ≤ dst.length → ∀ k, k < n → slotGet d' (d0 + k) = some dflt) := by
  intro n
  induction n with
  | zero =>
    intro dst d0 c d' c' h
    simp only [uninitializedValueConstructN, Except.ok.injEq, Prod.mk.injEq] at h
    obtain ⟨h1, -⟩ := h
    subst h1
    exact ⟨rfl, fun i _ => rfl, fun _ k hk => absurd hk (Nat.not_lt_zero k)⟩
  | succ m ih =>
    intro dst d0 c d' c' h
    simp only [uninitializedValueConstructN] at h
    split at h
    next => exact absurd h (by simp)
    next hf =>
      split at h
      next r hrec =>
        simp only [Except.ok.injEq] at h
        rw [h] at hrec
        obtain ⟨l1, l2, l3⟩ := ih (slotSet dst d0 (some dflt)) (d0 + 1) _ d' c' hrec
        refine ⟨l1.trans (length_slotSet ..), ?_, ?_⟩
        · intro i hi
          rw [l2 i (by omega), slotGet_slotSet_ne dst d0 i (some dflt) (by omega)]
        · intro hlen k hk
          have hlen' : d0 + 1 + m ≤ (slotSet dst d0 (some dflt)).length := by
            rw [length_slotSet]; omega
          cases k with
          | zero =>
            have h0 := l2 d0 (by omega)
            simp only [Nat.add_zero]
            rw [h0, slotGet_slotSet_self dst d0 (some dflt) (by omega)]
          | succ j =>
            have := l3 hlen' j (by omega)
            rwa [show d0 + 1 + j = d0 + (j + 1) from by omega] at this
      next db c2 hrec => exact absurd h (by simp)

theorem uninitializedValueConstructN_error_len (fails : Nat → Bool) (dflt : α) :
    ∀ (n : Nat) (dst : Buf α) (d0 : Nat) (c : Ctr) (b : Buf α) (c' : Ctr),
    uninitializedValueConstructN fails dflt dst d0 n c = .error (b, c') →
    b.length = dst.length := by
  intro n
  induction n with
  | zero =>
    intro dst d0 c b c' h
    simp [uninitializedValueConstructN] at h
  | succ m ih =>
    intro dst d0 c b c' h
    simp only [uninitializedValueConstructN] at h
    split at h
    next =>
      simp only [Except.error.injEq, Prod.mk.injEq] at h
      rw [← h.1]
    next hf =>
      split at h
      next r hrec => exact absurd h (by simp)
      next db c2 hrec =>
        simp only [Except.error.injEq, Prod.mk.injEq] at h
        rw [← h.1, length_slotSet, ih _ _ _ _ _ hrec, length_slotSet]

theorem copyAssignN_ok_spec (fails : Nat → Bool) (src : Buf α) :
    ∀ (n : Nat) (dst : Buf α) (s0 d0 : Nat) (c : Ctr) (d' : Buf α) (c' : Ctr),
    copyAssignN fails src s0 dst d0 n c = .ok (d', c') →
    d'.length = dst.length ∧
    (∀ i, i < d0 ∨ d0 + n ≤ i → slotGet d' i = slotGet dst i) ∧
    (d0 + n ≤ dst.length → ∀ k, k < n → slotGet d' (d0 + k) = slotGet src (s0 + k)) := by
  intro n
  induction n with
  | zero =>
    intro dst s0 d0 c d' c' h
    simp only [copyAssignN, Except.ok.injEq, Prod.mk.injEq] at h
    obtain ⟨h1, -⟩ := h
    subst h1
    exact ⟨rfl, fun i _ => rfl, fun _ k hk => absurd hk (Nat.not_lt_zero k)⟩
  | succ m ih =>
    intro dst s0 d0 c d' c' h
    have step : ∀ (w : Option α) (c1 : Ctr),
        copyAssignN fails src (s0 + 1) (slotSet dst d0 w) (d0 + 1) m c1 = .ok (d', c') →
        slotGet src s0 = w →
        d'.length = dst.length ∧
        (∀ i, i < d0 ∨ d0 + (m + 1) ≤ i → slotGet d' i = slotGet dst i) ∧
        (d0 + (m + 1) ≤ dst.length → ∀ k, k < m + 1 →
          slotGet d' (d0 + k) = slotGet src (s0 + k)) := by
      intro w c1 hrec hw
      obtain ⟨l1, l2, l3⟩ := ih (slotSet dst d0 w) (s0 + 1) (d0 + 1) c1 d' c' hrec
      refine ⟨l1.trans (length_slotSet ..), ?_, ?_⟩
      · intro i hi
        rw [l2 i (by omega), slotGet_slotSet_ne dst d0 i w (by omega)]
      · intro hlen k hk
        have hlen' : d0 + 1 + m ≤ (slotSet dst d0 w).length := by
          rw [length_slotSet]; omega
        cases k with
        | zero =>
          have h0 := l2 d0 (by omega)
          simp only [Nat.add_zero]
          rw [h0, slotGet_slotSet_self dst d0 w (by omega)]
          exact hw.symm
        | succ j =>
          have := l3 hlen' j (by omega)
          have e1 : d0 + 1 + j = d0 + (j + 1) := by omega
          have e2 : s0 + 1 + j = s0 + (j + 1) := by omega
          rw [e1, e2] at this
          exact this
    simp only [copyAssignN] at h
    split at h
    next v hs =>
      split at h
      next => exact absurd h (by simp)
      next hf => exact step (some v) _ h hs
    next hs => exact step none c h hs

theorem copyAssignN_error_len (fails : Nat → Bool) (src : Buf α) :
    ∀ (n : Nat) (dst : Buf α) (s0 d0 : Nat) (c : Ctr) (b : Buf α) (c' : Ctr),
    copyAssignN fails src s0 dst d0 n c = .error (b, c') →
    b.length = dst.length := by
  intro n
  induction n with
  | zero =>
    intro dst s0 d0 c b c' h
    simp [copyAssignN] at h
  | succ m ih =>
    intro dst s0 d0 c b c' h
    simp only [copyAssignN] at h
    split at h
    next v hs =>
      split at h
      next =>
        simp only [Except.error.injEq, Prod.mk.injEq] at h
        rw [← h.1]
      next hf => rw [ih _ _ _ _ _ _ h, length_slotSet]
    next hs => rw [ih _ _ _ _ _ _ h, length_slotSet]

theorem destroyN_spec :
    ∀ (n : Nat) (b : Buf α) (start : Nat),
    (destroyN b start n).length = b.length ∧
    (∀ i, i < start ∨ start + n ≤ i → slotGet (destroyN b start n) i = slotGet b i) ∧
    (∀ k, k < n → slotGet (destroyN b start n) (start + k) = none) := by
  intro n
  induction n with
  | zero =>
    intro b start
    exact ⟨rfl, fun i _ => rfl, fun k hk => absurd hk (Nat.not_lt_zero k)⟩
  | succ m ih =>
    intro b start
    obtain ⟨l1, l2, l3⟩ := ih (slotSet b start none) (start + 1)
    refine ⟨?_, ?_, ?_⟩
    · rw [show destroyN b start (m + 1) = destroyN (slotSet b start none) (start + 1) m from rfl,
        l1, length_slotSet]
    · intro i hi
      rw [show destroyN b start (m + 1) = destroyN (slotSet b start none) (start + 1) m from rfl,
        l2 i (by omega), slotGet_slotSet_ne b start i none (by omega)]
    · intro k hk
      rw [show destroyN b start (m + 1) = destroyN (slotSet b start none) (start + 1) m from rfl]
      cases k with
      | zero =>
        have h0 := l2 start (by omega)
        simp only [Nat.add_zero]
        rw [h0]
        by_cases hb : start < b.length
        · exact slotGet_slotSet_self b start none hb
        · exact slotGet_ge_length (slotSet b start none) start (by rw [length_slotSet]; omega)
      | succ j =>
        have := l3 j (by omega)
        rwa [show start + 1 + j = start + (j + 1) from by omega] at this

theorem moveBackwardShift_spec :
    ∀ (n : Nat) (b : Buf α) (index : Nat),
    (moveBackwardShift b index n).length = b.length ∧
    (∀ i, i ≤ index ∨ index + n < i → slotGet (moveBackwardShift b index n) i = slotGet b i) ∧
    (index + n < b.length → ∀ k, k < n →
      slotGet (moveBackwardShift b index n) (index + k + 1) = slotGet b (index + k)) := by
  intro n
  induction n with
  | zero =>
    intro b index
    exact ⟨rfl, fun i _ => rfl, fun _ k hk => absurd hk (Nat.not_lt_zero k)⟩
  | succ m ih =>
    intro b index
    obtain ⟨l1, l2, l3⟩ := ih (slotSet b (index + m + 1) (slotGet b (index + m))) index
    have hred : moveBackwardShift b index (m + 1) =
        moveBackwardShift (slotSet b (index + m + 1) (slotGet b (index + m))) index m := rfl
    refine ⟨?_, ?_, ?_⟩
    · rw [hred, l1, length_slotSet]
    · intro i hi
      rw [hred, l2 i (by omega),
        slotGet_slotSet_ne b (index + m + 1) i (slotGet b (index + m)) (by omega)]
    · intro hlen k hk
      rw [hred]
      by_cases hkm : k = m
      · subst hkm
        rw [l2 (index + k + 1) (by omega),
          slotGet_slotSet_self b (index + k + 1) (slotGet b (index + k)) (by omega)]
      · have := l3 (by rw [length_slotSet]; omega) k (by omega)
        rwa [slotGet_slotSet_ne b (index + m + 1) (index + k)
          (slotGet b (index + m)) (by omega)] at this

theorem moveForwardShift_spec :
    ∀ (n : Nat) (b : Buf α) (dst : Nat),
    (moveForwardShift b dst n).length = b.length ∧
    (∀ i, i < dst ∨ dst + n ≤ i → slotGet (moveForwardShift b dst n) i = slotGet b i) ∧
    (dst + n ≤ b.length → ∀ k, k < n →
      slotGet (moveForwardShift b dst n) (dst + k) = slotGet b (dst + k + 1)) := by
  intro n
  induction n with
  | zero =>
    intro b dst
    exact ⟨rfl, fun i _ => rfl, fun _ k hk => absurd hk (Nat.not_lt_zero k)⟩
  | succ m ih =>
    intro b dst
    obtain ⟨l1, l2, l3⟩ := ih (slotSet b dst (slotGet b (dst + 1))) (dst + 1)
    have hred : moveForwardShift b dst (m + 1) =
        moveForwardShift (slotSet b dst (slotGet b (dst + 1))) (dst + 1) m := rfl
    refine ⟨?_, ?_, ?_⟩
    · rw [hred, l1, length_slotSet]
    · intro i hi
      rw [hred, l2 i (by omega), slotGet_slotSet_ne b dst i (slotGet b (dst + 1)) (by omega)]
    · intro hlen k hk
      rw [hred]
      cases k with
      | zero =>
        have h0 := l2 dst (by omega)
        simp only [Nat.add_zero]
        rw [h0, slotGet_slotSet_self b dst (slotGet b (dst + 1)) (by omega)]
      | succ j =>
        have := l3 (by rw [length_slotSet]; omega) j (by omega)
        rw [slotGet_slotSet_ne b dst (dst + 1 + j + 1) (slotGet b (dst + 1)) (by omega)] at this
        rw [show dst + (j + 1) = dst + 1 + j from by omega]
        exact this

theorem Capacity_eq (v : Vector α) : v.Capacity = v.data.buffer.length := rfl

theorem MoveOrCopyData_ok_spec (tf : TraitFlags) (fails : Nat → Bool)
    (src dst : Buf α) (size : Nat) (c : Ctr) (d' : Buf α) (c' : Ctr)
    (h : Vector.MoveOrCopyData tf fails src dst size c = .ok (d', c')) :
    d'.length = dst.length ∧
    (∀ i, size ≤ i → slotGet d' i = slotGet dst i) ∧
    (size ≤ dst.length → ∀ k, k < size → slotGet d' k = slotGet src k) := by
  simp only [Vector.MoveOrCopyData] at h
  split at h
  · simp only [Except.ok.injEq] at h
    obtain ⟨l1, l2, l3⟩ := uninitializedMoveN_spec src size dst 0 0 c
    rw [h] at l1 l2 l3
    refine ⟨l1, fun i hi => l2 i (by omega), fun hlen k hk => ?_⟩
    have := l3 (by omega) k hk
    simpa using this
  · obtain ⟨l1, l2, l3⟩ := uninitializedCopyN_ok_spec fails src size dst 0 0 c d' c' h
    refine ⟨l1, fun i hi => l2 i (by omega), fun hlen k hk => ?_⟩
    have := l3 (by omega) k hk
    simpa using this

theorem MoveOrCopyData_error_shape (tf : TraitFlags) (fails : Nat → Bool)
    (src dst : Buf α) (size : Nat) (c : Ctr) (e : Buf α × Ctr)
    (h : Vector.MoveOrCopyData tf fails src dst size c = .error e) :
    usesMovePath tf = false := by
  simp only [Vector.MoveOrCopyData] at h
  split at h
  next => exact absurd h (by simp)
  next hm => simpa using hm

theorem constructElem_some (fails : Nat → Bool) (c : Ctr) (v x : α) (c1 : Ctr)
    (h : constructElem fails c v = (some x, c1)) : x = v := by
  simp only [constructElem] at h
  split at h
  · exact absurd h (by simp)
  · simp only [Prod.mk.injEq, Option.some.injEq] at h
    exact h.1.symm

theorem EmplaceBack_ok_spec (tf : TraitFlags) (fails : Nat → Bool)
    (vec : Vector α) (v : α) (c : Ctr) (v' : Vector α) (c' : Ctr)
    (hwf : vec.size ≤ vec.data.buffer.length)
    (h : Vector.EmplaceBack tf fails vec v c = .ok (v', c')) :
    v'.size = vec.size + 1 ∧
    v'.size ≤ v'.data.buffer.length ∧
    (∀ i, i < vec.size → slotGet v'.data.buffer i = slotGet vec.data.buffer i) ∧
    slotGet v'.data.buffer vec.size = some v := by
  simp only [Vector.EmplaceBack] at h
  split at h
  next hfull =>
    have hcap : vec.size = vec.data.buffer.length := hfull
    split at h
    next => exact absurd h (by simp)
    next x c1 hf =>
      have hx : v = x := (constructElem_some fails c v x c1 hf).symm
      subst hx
      split at h
      next e hmoc => exact absurd h (by simp)
      next nb c2 hmoc =>
        simp only [Except.ok.injEq, Prod.mk.injEq] at h
        obtain ⟨hv', -⟩ := h
        subst hv'
        obtain ⟨l1, l2, l3⟩ := MoveOrCopyData_ok_spec tf fails vec.data.buffer _ vec.size _ nb c2 hmoc
        have hrep : ((RawMemory.allocate (if vec.size = 0 then 1 else vec.size * 2) :
            RawMemory α)).buffer.length = if vec.size = 0 then 1 else vec.size * 2 := by
          simp [RawMemory.allocate]
        have hsetlen : (slotSet (RawMemory.allocate (if vec.size = 0 then 1 else vec.size * 2) :
            RawMemory α).buffer vec.size (some v)).length =
            if vec.size = 0 then 1 else vec.size * 2 := by
          rw [length_slotSet, hrep]
        have hlt : vec.size < if vec.size = 0 then 1 else vec.size * 2 := by
          by_cases h0 : vec.size = 0
          · simp [h0]
          · simp only [h0, if_false]; omega
        refine ⟨rfl, ?_, ?_, ?_⟩
        · show vec.size + 1 ≤ nb.length
          rw [l1, hsetlen]; omega
        · intro i hi
          exact l3 (by rw [hsetlen]; omega) i hi
        · have := l2 vec.size (le_refl _)
          rw [this, slotGet_slotSet_self _ vec.size (some v) (by rw [hrep]; exact hlt)]
  next hfull =>
    have hlt : vec.size < vec.data.buffer.length := by
      rcases Nat.lt_or_ge vec.size vec.data.buffer.length with hc | hc
      · exact hc
      · exact absurd (le_antisymm hwf hc) hfull
    split at h
    next => exact absurd h (by simp)
    next x c1 hf =>
      have hx : v = x := (constructElem_some fails c v x c1 hf).symm
      subst hx
      simp only [Except.ok.injEq, Prod.mk.injEq] at h
      obtain ⟨hv', -⟩ := h
      subst hv'
      refine ⟨rfl, ?_, ?_, ?_⟩
      · show vec.size + 1 ≤ (slotSet vec.data.buffer vec.size (some v)).length
        rw [length_slotSet]; omega
      · intro i hi
        exact slotGet_slotSet_ne _ vec.size i (some v) (by omega)
      · exact slotGet_slotSet_self _ vec.size (some v) hlt

theorem appendAll_ok_spec (tf : TraitFlags) (fails : Nat → Bool) :
    ∀ (xs : List α) (vec : Vector α) (c : Ctr) (v' : Vector α) (c' : Ctr),
    vec.size ≤ vec.data.buffer.length →
    appendAll tf fails vec xs c = .ok (v', c') →
    v'.size = vec.size + xs.length ∧
    v'.size ≤ v'.data.buffer.length ∧
    (∀ i, i < vec.size → slotGet v'.data.buffer i = slotGet vec.data.buffer i) ∧
    (∀ j (hj : j < xs.length),
      slotGet v'.data.buffer (vec.size + j) = some (xs.get ⟨j, hj⟩)) := by
  intro xs
  induction xs with
  | nil =>
    intro vec c v' c' hwf h
    simp only [appendAll, Except.ok.injEq, Prod.mk.injEq] at h
    obtain ⟨h1, -⟩ := h
    subst h1
    exact ⟨by simp, hwf, fun i _ => rfl, fun j hj => absurd hj (Nat.not_lt_zero j)⟩
  | cons x rest ih =>
    intro vec c v' c' hwf h
    simp only [appendAll] at h
    split at h
    next e heb => exact absurd h (by simp)
    next v1 c1 heb =>
      obtain ⟨e1, e2, e3, e4⟩ := EmplaceBack_ok_spec tf fails vec x c v1 c1 hwf heb
      obtain ⟨f1, f2, f3, f4⟩ := ih v1 c1 v' c' e2 h
      refine ⟨by rw [f1, e1]; simp [Nat.add_assoc, Nat.add_comm 1], f2, ?_, ?_⟩
      · intro i hi
        rw [f3 i (by omega), e3 i hi]
      · intro j hj
        cases j with
        | zero =>
          have := f3 vec.size (by omega)
          simp only [Nat.add_zero]
          rw [this, e4]
          rfl
        | succ k =>
          have := f4 k (by simpa using hj)
          rw [e1] at this
          rwa [show vec.size + (k + 1) = vec.size + 1 + k from by omega]

theorem Reserve_ok_spec (tf : TraitFlags) (fails : Nat → Bool)
    (vec : Vector α) (n : Nat) (c : Ctr) (v' : Vector α) (c' : Ctr)
    (hwf : vec.size ≤ vec.data.buffer.length)
    (h : Vector.Reserve tf fails vec n c = .ok (v', c')) :
    v'.size = vec.size ∧
    v'.data.buffer.length = max vec.data.buffer.length n ∧
    (∀ i, i < vec.size → slotGet v'.data.buffer i = slotGet vec.data.buffer i) := by
  simp only [Vector.Reserve] at h
  split at h
  next hle =>
    simp only [Except.ok.injEq, Prod.mk.injEq] at h
    obtain ⟨h1, -⟩ := h
    subst h1
    have : n ≤ vec.data.buffer.length := hle
    exact ⟨rfl, by omega, fun i _ => rfl⟩
  next hgt =>
    have hlen : vec.data.buffer.length < n := by
      have := Capacity_eq vec
      omega
    split at h
    next e hmoc => exact absurd h (by simp)
    next nb c1 hmoc =>
      simp only [Except.ok.injEq, Prod.mk.injEq] at h
      obtain ⟨h1, -⟩ := h
      subst h1
      obtain ⟨l1, l2, l3⟩ := MoveOrCopyData_ok_spec tf fails vec.data.buffer _ vec.size _ nb c1 hmoc
      have hrep : ((RawMemory.allocate n : RawMemory α)).buffer.length = n := by
        simp [RawMemory.allocate]
      refine ⟨rfl, ?_, ?_⟩
      · show nb.length = _
        rw [l1, hrep]; omega
      · intro i hi
        exact l3 (by rw [hrep]; omega) i hi

theorem slotSet_preserve (b : Buf α) (i : Nat) (w : Option α)
    (h : slotGet b i = w) : slotSet b i w = b := by
  induction b generalizing i w with
  | nil => rfl
  | cons x xs ih =>
    cases i with
    | zero =>
      subst h
      rfl
    | succ n =>
      show x :: slotSet xs n w = x :: xs
      rw [ih n w h]

theorem moveBackwardShiftD_id :
    ∀ (n : Nat) (b : Buf α) (index : Nat),
    moveBackwardShiftD ⟨fun v => v⟩ b index n = moveBackwardShift b index n := by
  intro n
  induction n with
  | zero => intro b index; rfl
  | succ m ih =>
    intro b index
    cases hs : slotGet b (index + m) with
    | none =>
      simp only [moveBackwardShiftD, moveBackwardShift, hs]
      exact ih _ index
    | some v =>
      simp only [moveBackwardShiftD, moveBackwardShift, hs]
      have hb1 : slotGet (slotSet b (index + m + 1) (some v)) (index + m) = some v := by
        rw [slotGet_slotSet_ne _ _ _ _ (by omega)]
        exact hs
      rw [slotSet_preserve _ _ _ hb1]
      exact ih _ index

theorem emplaceMoveShiftD_id (vec : Vector α) (index : Nat) :
    emplaceMoveShiftD ⟨fun v => v⟩ vec index = emplaceMoveShift vec index := by
  cases hs : slotGet vec.data.buffer (vec.size - 1) with
  | none =>
    simp only [emplaceMoveShiftD, emplaceMoveShift, hs]
    rw [moveBackwardShiftD_id]
  | some v =>
    simp only [emplaceMoveShiftD, emplaceMoveShift, hs]
    have hb0 : slotGet (slotSet vec.data.buffer vec.size
        (slotGet vec.data.buffer (vec.size - 1))) (vec.size - 1) = some v := by
      by_cases h0 : vec.size = 0
      · rw [h0]
        rw [slotSet_preserve vec.data.buffer 0 (slotGet vec.data.buffer (0 - 1)) rfl]
        rw [← hs, h0]
      · rw [slotGet_slotSet_ne _ _ _ _ (by omega)]
        exact hs
    rw [hs] at hb0
    rw [slotSet_preserve _ _ _ hb0]
    rw [moveBackwardShiftD_id]

/-- For element types whose moved-from objects retain their value, the
explicit-move-semantics model of `Emplace` coincides with the
value-preserving model. -/
theorem EmplaceD_id (tf : TraitFlags) (fails : Nat → Bool)
    (vec : Vector α) (index : Nat) (v : α) (c : Ctr) :
    Vector.EmplaceD ⟨fun x => x⟩ tf fails vec index v c =
      Vector.Emplace tf fails vec index v c := by
  simp only [Vector.EmplaceD, Vector.Emplace, Vector.EmplaceMoveD, Vector.EmplaceMove,
    emplaceMoveShiftD_id]

theorem emplaceMoveShift_spec (vec : Vector α) (index : Nat)
    (hlt : vec.size < vec.data.buffer.length) (hpos : index ≤ vec.size) :
    (emplaceMoveShift vec index).length = vec.data.buffer.length ∧
    (∀ i, i < index → slotGet (emplaceMoveShift vec index) i = slotGet vec.data.buffer i) ∧
    (∀ i, index ≤ i → i < vec.size →
      slotGet (emplaceMoveShift vec index) (i + 1) = slotGet vec.data.buffer i) := by
  obtain ⟨m1, m2, m3⟩ := moveBackwardShift_spec (α := α) (vec.size - index)
    (slotSet vec.data.buffer vec.size (slotGet vec.data.buffer (vec.size - 1))) index
  have hb1len : (slotSet vec.data.buffer vec.size
      (slotGet vec.data.buffer (vec.size - 1))).length = vec.data.buffer.length :=
    length_slotSet ..
  refine ⟨?_, ?_, ?_⟩
  · show (slotSet _ index none).length = _
    rw [length_slotSet, m1, hb1len]
  · intro i hi
    show slotGet (slotSet _ index none) i = _
    rw [slotGet_slotSet_ne _ index i none (by omega), m2 i (by omega),
      slotGet_slotSet_ne _ vec.size i _ (by omega)]
  · intro i hil hiu
    show slotGet (slotSet _ index none) (i + 1) = _
    rw [slotGet_slotSet_ne _ index (i + 1) none (by omega)]
    have hk := m3 (by rw [hb1len]; omega) (i - index) (by omega)
    rw [show index + (i - index) + 1 = i + 1 from by omega,
      show index + (i - index) = i from by omega] at hk
    rw [hk, slotGet_slotSet_ne _ vec.size i _ (by omega)]

/-- For element types whose moved-from objects retain their value (the
`remnant v = v` instance of `MoveSem`, exact for trivially copyable types):
with spare capacity, `Emplace` at a valid position `pos` yields the prefix
`[0, pos)` unchanged, the new element at `pos`, the former elements
`[pos, size)` shifted one slot right with their exact values, and size one
larger.  This is precisely the property that fails under destructive move
semantics (see `claim_C1_lost_last_element`): the shift's re-read of the
moved-from slot `size_ - 1` is value-correct only when the remnant keeps
the value. -/
theorem Emplace_spare_value_preserving (α : Type) (tf : TraitFlags) (fails : Nat → Bool)
    (vec : Vector α) (pos : Nat) (v : α) (c : Ctr) (v' : Vector α) (c' : Ctr)
    (hcap : vec.Size < vec.Capacity) (hpos : pos ≤ vec.Size)
    (h : Vector.Emplace tf fails vec pos v c = .ok (v', c')) :
    v'.Size = vec.Size + 1 ∧
    (∀ i, i < pos → slotGet v'.data.buffer i = slotGet vec.data.buffer i) ∧
    slotGet v'.data.buffer pos = some v ∧
    (∀ i, pos ≤ i → i < vec.Size →
      slotGet v'.data.buffer (i + 1) = slotGet vec.data.buffer i) := by
  have hlt : vec.size < vec.data.buffer.length := by
    have h1 : vec.size < vec.Capacity := hcap
    have h2 := Capacity_eq vec
    omega
  have hpos' : pos ≤ vec.size := hpos
  have hSize : vec.Size = vec.size := rfl
  have hCap : vec.Capacity = vec.data.buffer.length := Capacity_eq vec
  simp only [Vector.Emplace] at h
  rw [if_neg (show ¬ vec.size = vec.Capacity from by rw [Capacity_eq]; omega)] at h
  simp only [Vector.EmplaceMove] at h
  by_cases h0 : vec.size = 0
  · have hp0 : pos = 0 := by omega
    subst hp0
    rw [if_neg (by omega)] at h
    split at h
    next => exact absurd h (by simp)
    next x c2 hf =>
      have hx : v = x := (constructElem_some fails _ v x c2 hf).symm
      subst hx
      simp only [Except.ok.injEq, Prod.mk.injEq] at h
      obtain ⟨h1, -⟩ := h
      subst h1
      rw [if_neg (by omega)]
      refine ⟨show vec.size + 1 = vec.size + 1 from rfl, ?_, ?_, ?_⟩
      · intro i hi
        exact absurd hi (Nat.not_lt_zero i)
      · exact slotGet_slotSet_self vec.data.buffer 0 (some v) (by omega)
      · intro i hil hiu
        exact absurd (Nat.lt_of_le_of_lt hil hiu) (by omega)
  · rw [if_pos (by omega)] at h
    split at h
    next => exact absurd h (by simp)
    next x c2 hf =>
      have hx : v = x := (constructElem_some fails _ v x c2 hf).symm
      subst hx
      simp only [Except.ok.injEq, Prod.mk.injEq] at h
      obtain ⟨h1, -⟩ := h
      subst h1
      rw [if_pos (by omega)]
      obtain ⟨s1, s2, s3⟩ := emplaceMoveShift_spec vec pos hlt hpos'
      refine ⟨show vec.size + 1 = vec.size + 1 from rfl, ?_, ?_, ?_⟩
      · intro i hi
        rw [slotGet_slotSet_ne _ pos i (some v) (by omega)]
        exact s2 i hi
      · exact slotGet_slotSet_self _ pos (some v) (by rw [s1]; omega)
      · intro i hil hiu
        rw [slotGet_slotSet_ne _ pos (i + 1) (some v) (by omega)]
        exact s3 i hil hiu

/-- C1: the claim fails on the program.  Under move semantics with a null
remnant (the guaranteed behaviour of `std::unique_ptr`, a nothrow-move type
for which the container selects the move path), a spare-capacity `Emplace`
at position 0 of the two-element vector `[10, 20]` (capacity 3, so the
in-place path runs) returns `[99, 10, 0]`: the `move_backward` at
`vector.h:321` covers `[index_, size_)` instead of `[index_, size_ - 1)`,
so its first move assignment overwrites the freshly move-constructed
trailing slot with the moved-from slot `size_ - 1`, and the last element's
value 20 is lost instead of being retained at the shifted position 2. -/
theorem claim_C1_lost_last_element :
    Vector.EmplaceD ⟨fun _ => 0⟩ ⟨true, true⟩ noFail
        (⟨⟨[some 10, some 20, none]⟩, 2⟩ : Vector Nat) 0 99 ⟨0, 0, 0⟩ =
      .ok (⟨⟨[some 99, some 10, some 0]⟩, 3⟩, ⟨2, 0, 1⟩) ∧
    ¬ (slotGet (⟨⟨[some 99, some 10, some 0]⟩, 3⟩ : Vector Nat).data.buffer 2 = some 20) :=
  ⟨rfl, by decide⟩

/-- C2, counterexample: the claim says every move transfer leaves the source
empty, but move assignment is implemented as a swap, so assigning from a
one-element vector into a one-element vector leaves the source with size 1. -/
theorem claim_C2_counterexample :
    ¬ ((Vector.moveAssign (⟨⟨[some 1]⟩, 1⟩ : Vector Nat) ⟨⟨[some 2]⟩, 1⟩).2.Size = 0) := by
  decide

/-- C2, amended: after move construction the destination holds the source's
former storage and size and the source is left empty; after move assignment
the destination holds the source's former storage and size, while the source
receives the destination's former storage and size (so the source ends empty
exactly when the destination started empty). -/
theorem claim_C2_move_transfer (α : Type) :
    (∀ other : Vector α, Vector.moveCtor other = (other, Vector.default)) ∧
    (∀ a b : Vector α, Vector.moveAssign a b = (b, a)) :=
  ⟨fun _ => rfl, fun _ _ => rfl⟩

/-- C10: copy-assigning a vector to itself (the `this != &rhs` guard fires)
returns the object and the instrumentation counters unchanged: no element is
copied, assigned, or destroyed. -/
theorem claim_C10_self_assign (α : Type) (fails : Nat → Bool) (v : Vector α) (c : Ctr) :
    Vector.assignCopy fails true v v c = .ok (v, c) :=
  rfl

/-- C4: appending the values of any list one by one to an empty vector and
reading slots `0..N-1` back yields exactly the input values in insertion
order, whatever reallocations the appends performed. -/
theorem claim_C4_roundtrip (α : Type) (tf : TraitFlags) (fails : Nat → Bool)
    (xs : List α) (c : Ctr) (v' : Vector α) (c' : Ctr)
    (h : appendAll tf fails Vector.default xs c = .ok (v', c'))
    (i : Nat) (hi : i < xs.length) :
    slotGet v'.data.buffer i = some (xs.get ⟨i, hi⟩) := by
  obtain ⟨-, -, -, f4⟩ :=
    appendAll_ok_spec tf fails xs Vector.default c v' c' (Nat.le_refl 0) h
  simpa [Vector.default] using f4 i hi

/-- Witness for C4 at the spec's example: appending 1, 2, 3 and reading
index 1 back gives 2. -/
theorem claim_C4_witness :
    slotGet (⟨⟨[some 1, some 2, some 3, none]⟩, 3⟩ : Vector Nat).data.buffer 1 =
      some (([1, 2, 3] : List Nat).get ⟨1, by decide⟩) :=
  claim_C4_roundtrip Nat ⟨false, true⟩ noFail [1, 2, 3] ⟨0, 0, 0⟩ _ _ rfl 1 (by decide)

/-- C5: `n` successful appends from a default-constructed vector leave the
size equal to `n`, and each append preserves the capacity when there is
spare room and reallocates to `max 1 (2 * capacity)` when full. -/
theorem claim_C5_size_and_capacity_rule (α : Type) :
    (∀ (tf : TraitFlags) (fails : Nat → Bool) (xs : List α) (c : Ctr)
        (v' : Vector α) (c' : Ctr),
      appendAll tf fails Vector.default xs c = .ok (v', c') → v'.Size = xs.length) ∧
    (∀ (tf : TraitFlags) (fails : Nat → Bool) (vec : Vector α) (x : α) (c : Ctr)
        (v' : Vector α) (c' : Ctr),
      vec.Size < vec.Capacity →
      Vector.EmplaceBack tf fails vec x c = .ok (v', c') →
      v'.Capacity = vec.Capacity) ∧
    (∀ (tf : TraitFlags) (fails : Nat → Bool) (vec : Vector α) (x : α) (c : Ctr)
        (v' : Vector α) (c' : Ctr),
      vec.Size = vec.Capacity →
      Vector.EmplaceBack tf fails vec x c = .ok (v', c') →
      v'.Capacity = max 1 (2 * vec.Capacity)) := by
  refine ⟨?_, ?_, ?_⟩
  · intro tf fails xs c v' c' h
    obtain ⟨f1, -, -, -⟩ :=
      appendAll_ok_spec tf fails xs Vector.default c v' c' (Nat.le_refl 0) h
    show v'.size = xs.length
    simpa [Vector.default] using f1
  · intro tf fails vec x c v' c' hlt h
    have hne : ¬ (vec.size = vec.Capacity) := by
      have h1 : vec.size < vec.Capacity := hlt
      omega
    simp only [Vector.EmplaceBack] at h
    rw [if_neg hne] at h
    split at h
    next => exact absurd h (by simp)
    next y c1 hf =>
      simp only [Except.ok.injEq, Prod.mk.injEq] at h
      obtain ⟨h1, -⟩ := h
      subst h1
      show (slotSet vec.data.buffer vec.size (some y)).length = vec.data.buffer.length
      exact length_slotSet ..
  · intro tf fails vec x c v' c' hfull h
    simp only [Vector.EmplaceBack] at h
    rw [if_pos (show vec.size = vec.Capacity from hfull)] at h
    split at h
    next => exact absurd h (by simp)
    next y c1 hf =>
      split at h
      next e hmoc => exact absurd h (by simp)
      next nb c2 hmoc =>
        simp only [Except.ok.injEq, Prod.mk.injEq] at h
        obtain ⟨h1, -⟩ := h
        subst h1
        obtain ⟨l1, -, -⟩ :=
          MoveOrCopyData_ok_spec tf fails vec.data.buffer _ vec.size _ nb c2 hmoc
        show nb.length = _
        rw [l1, length_slotSet]
        have hsz : vec.size = vec.Capacity := hfull
        have hc : vec.Capacity = vec.data.buffer.length := Capacity_eq vec
        show (RawMemory.allocate (if vec.size = 0 then 1 else vec.size * 2) :
          RawMemory α).buffer.length = max 1 (2 * vec.Capacity)
        simp only [RawMemory.allocate, List.length_replicate]
        by_cases h0 : vec.size = 0
        · rw [if_pos h0]; omega
        · rw [if_neg h0]; omega

/-- Witness for C5: the three parts applied to concrete runs — three appends
from empty give size 3; an append into spare capacity keeps capacity 2; an
append at full capacity 1 reallocates to capacity 2 = max 1 (2 * 1). -/
theorem claim_C5_witness :
    (⟨⟨[some 1, some 2, some 3, none]⟩, 3⟩ : Vector Nat).Size = ([1, 2, 3] : List Nat).length ∧
    (⟨⟨[some 1, some 2]⟩, 2⟩ : Vector Nat).Capacity =
      (⟨⟨[some 1, none]⟩, 1⟩ : Vector Nat).Capacity ∧
    (⟨⟨[some 1, some 2]⟩, 2⟩ : Vector Nat).Capacity =
      max 1 (2 * (⟨⟨[some 1]⟩, 1⟩ : Vector Nat).Capacity) :=
  ⟨(claim_C5_size_and_capacity_rule Nat).1 ⟨false, true⟩ noFail [1, 2, 3] ⟨0, 0, 0⟩ _ _ rfl,
   (claim_C5_size_and_capacity_rule Nat).2.1 ⟨false, true⟩ noFail ⟨⟨[some 1, none]⟩, 1⟩ 2
     ⟨0, 0, 0⟩ _ _ (by decide) rfl,
   (claim_C5_size_and_capacity_rule Nat).2.2 ⟨false, true⟩ noFail ⟨⟨[some 1]⟩, 1⟩ 2
     ⟨0, 0, 0⟩ _ _ rfl rfl⟩

theorem Reserve_error_eq (tf : TraitFlags) (fails : Nat → Bool)
    (vec : Vector α) (n : Nat) (c : Ctr) (e : Vector α) (c' : Ctr)
    (h : Vector.Reserve tf fails vec n c = .error (e, c')) : e = vec := by
  simp only [Vector.Reserve] at h
  split at h
  next => exact absurd h (by simp)
  next =>
    split at h
    next b c1 hmoc =>
      simp only [Except.error.injEq, Prod.mk.injEq] at h
      exact h.1.symm
    next nb c1 hmoc => exact absurd h (by simp)

theorem EmplaceBack_error_eq (tf : TraitFlags) (fails : Nat → Bool)
    (vec : Vector α) (x : α) (c : Ctr) (e : Vector α) (c' : Ctr)
    (h : Vector.EmplaceBack tf fails vec x c = .error (e, c')) : e = vec := by
  simp only [Vector.EmplaceBack] at h
  split at h
  next hfull =>
    split at h
    next c1 hf =>
      simp only [Except.error.injEq, Prod.mk.injEq] at h
      exact h.1.symm
    next y c1 hf =>
      split at h
      next b c2 hmoc =>
        simp only [Except.error.injEq, Prod.mk.injEq] at h
        exact h.1.symm
      next nb c2 hmoc => exact absurd h (by simp)
  next hfull =>
    split at h
    next c1 hf =>
      simp only [Except.error.injEq, Prod.mk.injEq] at h
      exact h.1.symm
    next y c1 hf => exact absurd h (by simp)

theorem EmplaceRealloc_error_eq (tf : TraitFlags) (fails : Nat → Bool)
    (vec : Vector α) (pos : Nat) (x : α) (c : Ctr) (e : Vector α) (c' : Ctr)
    (h : Vector.EmplaceRealloc tf fails vec pos x c = .error (e, c')) : e = vec := by
  simp only [Vector.EmplaceRealloc] at h
  split at h
  next c1 hf =>
    simp only [Except.error.injEq, Prod.mk.injEq] at h
    exact h.1.symm
  next y c1 hf =>
    split at h
    next hmove => exact absurd h (by simp)
    next hmove =>
      split at h
      next b c2 hcp =>
        simp only [Except.error.injEq, Prod.mk.injEq] at h
        exact h.1.symm
      next nb1 c2 hcp =>
        split at h
        next b c3 hcs =>
          simp only [Except.error.injEq, Prod.mk.injEq] at h
          exact h.1.symm
        next nb2 c3 hcs => exact absurd h (by simp)

/-- C3: every capacity-growing operation — `Reserve`, `EmplaceBack` at full
capacity (so `PushBack` too), `Emplace` at full capacity (so `Insert` too) —
that fails while constructing the new element or during a protected copy
transfer propagates the error and leaves the vector's size, capacity and
every element exactly as before the call (the error payload is the
unchanged object). -/
theorem claim_C3_strong_guarantee (α : Type) :
    (∀ (tf : TraitFlags) (fails : Nat → Bool) (vec : Vector α) (n : Nat) (c : Ctr)
        (e : Vector α) (c' : Ctr),
      Vector.Reserve tf fails vec n c = .error (e, c') → e = vec) ∧
    (∀ (tf : TraitFlags) (fails : Nat → Bool) (vec : Vector α) (x : α) (c : Ctr)
        (e : Vector α) (c' : Ctr),
      vec.Size = vec.Capacity →
      Vector.EmplaceBack tf fails vec x c = .error (e, c') → e = vec) ∧
    (∀ (tf : TraitFlags) (fails : Nat → Bool) (vec : Vector α) (pos : Nat) (x : α) (c : Ctr)
        (e : Vector α) (c' : Ctr),
      vec.Size = vec.Capacity →
      Vector.Emplace tf fails vec pos x c = .error (e, c') → e = vec) := by
  refine ⟨?_, ?_, ?_⟩
  · intro tf fails vec n c e c' h
    exact Reserve_error_eq tf fails vec n c e c' h
  · intro tf fails vec x c e c' _ h
    exact EmplaceBack_error_eq tf fails vec x c e c' h
  · intro tf fails vec pos x c e c' hfull h
    simp only [Vector.Emplace] at h
    rw [if_pos (show vec.size = vec.Capacity from hfull)] at h
    exact EmplaceRealloc_error_eq tf fails vec pos x c e c' h

/-- Witness for C3: three concrete failing runs — a copy-throwing `Reserve`
on a one-element vector, a construction-throwing `EmplaceBack` on the empty
vector at full capacity, and a construction-throwing `Emplace` likewise —
each return the unchanged vector in the error. -/
theorem claim_C3_witness :
    (⟨⟨[some 1]⟩, 1⟩ : Vector Nat) = ⟨⟨[some 1]⟩, 1⟩ ∧
    (Vector.default : Vector Nat) = Vector.default ∧
    (Vector.default : Vector Nat) = Vector.default :=
  ⟨(claim_C3_strong_guarantee Nat).1 ⟨false, true⟩ (fun _ => true) ⟨⟨[some 1]⟩, 1⟩ 5
      ⟨0, 0, 0⟩ _ _ rfl,
   (claim_C3_strong_guarantee Nat).2.1 ⟨false, true⟩ (fun _ => true) Vector.default 7
      ⟨0, 0, 0⟩ _ _ (by decide) rfl,
   (claim_C3_strong_guarantee Nat).2.2 ⟨false, true⟩ (fun _ => true) Vector.default 0 7
      ⟨0, 0, 0⟩ _ _ (by decide) rfl⟩

/-- C8: `Resize(n)` always sets the size to `n`; when shrinking it destroys
exactly the slots `[n, size)` and keeps `[0, n)` unchanged; when growing it
first guarantees capacity at least `n`, keeps `[0, size)` unchanged, and
value-constructs the default element into `[size, n)`. -/
theorem claim_C8_resize (α : Type) (tf : TraitFlags) (fails : Nat → Bool) (dflt : α)
    (vec : Vector α) (n : Nat) (c : Ctr) (v' : Vector α) (c' : Ctr)
    (hwf : vec.Size ≤ vec.Capacity)
    (h : Vector.Resize tf fails dflt vec n c = .ok (v', c')) :
    v'.Size = n ∧
    (n < vec.Size →
      (∀ i, i < n → slotGet v'.data.buffer i = slotGet vec.data.buffer i) ∧
      (∀ i, n ≤ i → i < vec.Size → slotGet v'.data.buffer i = none)) ∧
    (vec.Size ≤ n →
      n ≤ v'.Capacity ∧
      (∀ i, i < vec.Size → slotGet v'.data.buffer i = slotGet vec.data.buffer i) ∧
      (∀ i, vec.Size ≤ i → i < n → slotGet v'.data.buffer i = some dflt)) := by
  have hSize : vec.Size = vec.size := rfl
  have hCap := Capacity_eq vec
  have hwf' : vec.size ≤ vec.data.buffer.length := by omega
  simp only [Vector.Resize] at h
  split at h
  next hshr =>
    simp only [Except.ok.injEq, Prod.mk.injEq] at h
    obtain ⟨h1, -⟩ := h
    subst h1
    obtain ⟨d1, d2, d3⟩ := destroyN_spec (α := α) (vec.size - n) vec.data.buffer n
    refine ⟨rfl, fun _ => ⟨?_, ?_⟩, fun hge => absurd hge (by omega)⟩
    · intro i hi
      exact d2 i (Or.inl hi)
    · intro i hil hiu
      have := d3 (i - n) (by omega)
      rwa [show n + (i - n) = i from by omega] at this
  next hshr =>
    split at h
    next e hres => exact absurd h (by simp)
    next v1 c1 hres =>
      obtain ⟨r1, r2, r3⟩ := Reserve_ok_spec tf fails vec n c v1 c1 hwf' hres
      split at h
      next b c2 hvc => exact absurd h (by simp)
      next b c2 hvc =>
        simp only [Except.ok.injEq, Prod.mk.injEq] at h
        obtain ⟨h1, -⟩ := h
        subst h1
        obtain ⟨q1, q2, q3⟩ :=
          uninitializedValueConstructN_ok_spec fails dflt (n - vec.size)
            v1.data.buffer vec.size c1 b c2 hvc
        refine ⟨rfl, fun hlt => absurd hlt (by omega), fun _ => ⟨?_, ?_, ?_⟩⟩
        · show n ≤ b.length
          rw [q1, r2]; omega
        · intro i hi
          have hi' : i < vec.size := by omega
          rw [q2 i (Or.inl (by omega)), r3 i hi']
        · intro i hil hiu
          have := q3 (by rw [r2]; omega) (i - vec.size) (by omega)
          rwa [show vec.size + (i - vec.size) = i from by omega] at this

/-- Witness for C8 at the spec's example: `Resize(5)` on `[1, 2, 3]`
(capacity 3) yields `[1, 2, 3, 0, 0]` with size 5 and capacity 5. -/
theorem claim_C8_witness :
    (⟨⟨[some 1, some 2, some 3, some 0, some 0]⟩, 5⟩ : Vector Nat).Size = 5 ∧
    (5 < (⟨⟨[some 1, some 2, some 3]⟩, 3⟩ : Vector Nat).Size →
      (∀ i, i < 5 →
        slotGet (⟨⟨[some 1, some 2, some 3, some 0, some 0]⟩, 5⟩ : Vector Nat).data.buffer i =
          slotGet (⟨⟨[some 1, some 2, some 3]⟩, 3⟩ : Vector Nat).data.buffer i) ∧
      (∀ i, 5 ≤ i → i < (⟨⟨[some 1, some 2, some 3]⟩, 3⟩ : Vector Nat).Size →
        slotGet (⟨⟨[some 1, some 2, some 3, some 0, some 0]⟩, 5⟩ : Vector Nat).data.buffer i =
          none)) ∧
    ((⟨⟨[some 1, some 2, some 3]⟩, 3⟩ : Vector Nat).Size ≤ 5 →
      5 ≤ (⟨⟨[some 1, some 2, some 3, some 0, some 0]⟩, 5⟩ : Vector Nat).Capacity ∧
      (∀ i, i < (⟨⟨[some 1, some 2, some 3]⟩, 3⟩ : Vector Nat).Size →
        slotGet (⟨⟨[some 1, some 2, some 3, some 0, some 0]⟩, 5⟩ : Vector Nat).data.buffer i =
          slotGet (⟨⟨[some 1, some 2, some 3]⟩, 3⟩ : Vector Nat).data.buffer i) ∧
      (∀ i, (⟨⟨[some 1, some 2, some 3]⟩, 3⟩ : Vector Nat).Size ≤ i → i < 5 →
        slotGet (⟨⟨[some 1, some 2, some 3, some 0, some 0]⟩, 5⟩ : Vector Nat).data.buffer i =
          some 0)) :=
  claim_C8_resize Nat ⟨false, true⟩ noFail 0 ⟨⟨[some 1, some 2, some 3]⟩, 3⟩ 5
    ⟨0, 0, 0⟩ _ _ (by decide) rfl

theorem copyCtor_ok_spec (fails : Nat → Bool) (other : Vector α) (c : Ctr)
    (v : Vector α) (c' : Ctr)
    (h : Vector.copyCtor fails other c = .ok (v, c')) :
    v.size = other.size ∧ v.data.buffer.length = other.size ∧
    (∀ i, i < other.size → slotGet v.data.buffer i = slotGet other.data.buffer i) := by
  simp only [Vector.copyCtor] at h
  split at h
  next b c1 hcp => exact absurd h (by simp)
  next b c1 hcp =>
    simp only [Except.ok.injEq, Prod.mk.injEq] at h
    obtain ⟨h1, -⟩ := h
    subst h1
    obtain ⟨l1, l2, l3⟩ :=
      uninitializedCopyN_ok_spec fails other.data.buffer other.size
        (RawMemory.allocate other.size).buffer 0 0 c b c1 hcp
    have hrep : ((RawMemory.allocate other.size : RawMemory α)).buffer.length = other.size := by
      simp [RawMemory.allocate]
    refine ⟨rfl, by rw [show (⟨⟨b⟩, other.size⟩ : Vector α).data.buffer = b from rfl, l1, hrep],
      fun i hi => ?_⟩
    have := l3 (by omega) i hi
    simpa using this

/-- C7: a successful copy assignment (distinct objects) makes the receiver's
size and elements equal to the source's; and when the source is larger than
the receiver's capacity, a failed copy assignment leaves the receiver
completely unchanged (the copy-and-swap branch; size would only have been
updated after the copying). -/
theorem claim_C7_copy_assign (α : Type) (fails : Nat → Bool)
    (recv rhs : Vector α) (c : Ctr) :
    (∀ (v' : Vector α) (c' : Ctr),
      Vector.assignCopy fails false recv rhs c = .ok (v', c') →
      v'.Size = rhs.Size ∧
      (∀ i, i < rhs.Size → slotGet v'.data.buffer i = slotGet rhs.data.buffer i)) ∧
    (recv.Capacity < rhs.Size →
      ∀ (e : Vector α) (c' : Ctr),
      Vector.assignCopy fails false recv rhs c = .error (e, c') → e = recv) := by
  have hCap : recv.data.Capacity = recv.data.buffer.length := rfl
  have hS : rhs.Size = rhs.size := rfl
  have hR : recv.Size = recv.size := rfl
  constructor
  · intro v' c' h
    simp only [Vector.assignCopy, Bool.false_eq_true, if_false] at h
    split at h
    next hbig =>
      split at h
      next c1 hcc => exact absurd h (by simp)
      next rhsCopy c1 hcc =>
        simp only [Except.ok.injEq, Prod.mk.injEq] at h
        obtain ⟨h1, -⟩ := h
        subst h1
        obtain ⟨p1, p2, p3⟩ := copyCtor_ok_spec fails rhs c rhsCopy c1 hcc
        exact ⟨p1, fun i hi => p3 i hi⟩
    next hbig =>
      have hfit : rhs.size ≤ recv.data.buffer.length := by omega
      split at h
      next hle =>
        split at h
        next b c1 hca => exact absurd h (by simp)
        next b c1 hca =>
          simp only [Except.ok.injEq, Prod.mk.injEq] at h
          obtain ⟨h1, -⟩ := h
          subst h1
          obtain ⟨a1, a2, a3⟩ :=
            copyAssignN_ok_spec fails rhs.data.buffer rhs.size
              (destroyN recv.data.buffer rhs.size (recv.size - rhs.size)) 0 0 c b c1 hca
          obtain ⟨d1, -, -⟩ :=
            destroyN_spec (α := α) (recv.size - rhs.size) recv.data.buffer rhs.size
          refine ⟨rfl, fun i hi => ?_⟩
          have := a3 (by rw [d1]; omega) i hi
          simpa using this
      next hgt =>
        split at h
        next b c1 huc => exact absurd h (by simp)
        next b1 c1 huc =>
          split at h
          next b c2 hca => exact absurd h (by simp)
          next b2 c2 hca =>
            simp only [Except.ok.injEq, Prod.mk.injEq] at h
            obtain ⟨h1, -⟩ := h
            subst h1
            obtain ⟨u1, u2, u3⟩ :=
              uninitializedCopyN_ok_spec fails rhs.data.buffer (rhs.size - recv.size)
                recv.data.buffer recv.size recv.size c b1 c1 huc
            obtain ⟨a1, a2, a3⟩ :=
              copyAssignN_ok_spec fails rhs.data.buffer recv.size b1 0 0 c1 b2 c2 hca
            refine ⟨rfl, fun i hi => ?_⟩
            by_cases hsmall : i < recv.size
            · have := a3 (by rw [u1]; omega) i hsmall
              simpa using this
            · have houter := a2 i (by omega)
              have hinner := u3 (by omega) (i - recv.size) (by omega)
              rw [show recv.size + (i - recv.size) = i from by omega] at hinner
              rw [houter, hinner]
  · intro hbig e c' h
    have hbig' : recv.data.Capacity < rhs.size := hbig
    simp only [Vector.assignCopy, Bool.false_eq_true, if_false] at h
    rw [if_pos hbig'] at h
    split at h
    next c1 hcc =>
      simp only [Except.error.injEq, Prod.mk.injEq] at h
      exact h.1.symm
    next rhsCopy c1 hcc => exact absurd h (by simp)

/-- Witness for C7: copy-assigning `[7, 8]` into a capacity-1 vector `[9]`
succeeds through the copy-and-swap branch (size and slot 0 checked), and the
same assignment with an always-throwing copy leaves the receiver `[9]`
unchanged. -/
theorem claim_C7_witness :
    ((⟨⟨[some 7, some 8]⟩, 2⟩ : Vector Nat).Size =
        (⟨⟨[some 7, some 8]⟩, 2⟩ : Vector Nat).Size ∧
      (∀ i, i < (⟨⟨[some 7, some 8]⟩, 2⟩ : Vector Nat).Size →
        slotGet (⟨⟨[some 7, some 8]⟩, 2⟩ : Vector Nat).data.buffer i =
          slotGet (⟨⟨[some 7, some 8]⟩, 2⟩ : Vector Nat).data.buffer i)) ∧
    (⟨⟨[some 9]⟩, 1⟩ : Vector Nat) = ⟨⟨[some 9]⟩, 1⟩ :=
  ⟨(claim_C7_copy_assign Nat noFail ⟨⟨[some 9]⟩, 1⟩ ⟨⟨[some 7, some 8]⟩, 2⟩ ⟨0, 0, 0⟩).1
      _ _ rfl,
   (claim_C7_copy_assign Nat (fun _ => true) ⟨⟨[some 9]⟩, 1⟩ ⟨⟨[some 7, some 8]⟩, 2⟩
      ⟨0, 0, 0⟩).2 (by decide) _ _ rfl⟩

theorem constructElem_some_ctr (fails : Nat → Bool) (c : Ctr) (v x : α) (c1 : Ctr)
    (h : constructElem fails c v = (some x, c1)) : c1 = { c with cnt := c.cnt + 1 } := by
  simp only [constructElem] at h
  split at h
  · exact absurd h (by simp)
  · simp only [Prod.mk.injEq] at h
    exact h.2.symm

theorem MoveOrCopyData_ok_ctr (tf : TraitFlags) (fails : Nat → Bool)
    (src dst : Buf α) (size : Nat) (c : Ctr) (d' : Buf α) (c' : Ctr)
    (h : Vector.MoveOrCopyData tf fails src dst size c = .ok (d', c'))
    (hlive : ∀ k, k < size → (slotGet src k).isSome = true) :
    (usesMovePath tf = true → c' = ⟨c.cnt + size, c.copies, c.moves + size⟩) ∧
    (usesMovePath tf = false → c' = ⟨c.cnt + size, c.copies + size, c.moves⟩) := by
  simp only [Vector.MoveOrCopyData] at h
  split at h
  next hm =>
    have hum : uninitializedMoveN src 0 dst 0 size c = (d', c') := by simpa using h
    constructor
    · intro _
      calc c' = (uninitializedMoveN src 0 dst 0 size c).2 := by rw [hum]
        _ = ⟨c.cnt + size, c.copies, c.moves + size⟩ :=
          uninitializedMoveN_ctr src size dst 0 0 c (fun k hk => by simpa using hlive k hk)
    · intro hm2
      rw [hm] at hm2
      cases hm2
  next hm =>
    have hm' : usesMovePath tf = false := by simpa using hm
    constructor
    · intro hm2
      rw [hm'] at hm2
      cases hm2
    · intro _
      exact uninitializedCopyN_ok_ctr fails src size dst 0 0 c d' c' h
        (fun k hk => by simpa using hlive k hk)

theorem EmplaceRealloc_ok_ctr (tf : TraitFlags) (fails : Nat → Bool)
    (vec : Vector α) (pos : Nat) (x : α) (c : Ctr) (v' : Vector α) (c' : Ctr)
    (hlive : ∀ k, k < vec.size → (slotGet vec.data.buffer k).isSome = true)
    (hpos : pos ≤ vec.size)
    (h : Vector.EmplaceRealloc tf fails vec pos x c = .ok (v', c')) :
    (usesMovePath tf = true → c'.moves = c.moves + vec.size ∧ c'.copies = c.copies) ∧
    (usesMovePath tf = false → c'.copies = c.copies + vec.size ∧ c'.moves = c.moves) := by
  simp only [Vector.EmplaceRealloc] at h
  split at h
  next c1 hf => exact absurd h (by simp)
  next y c1 hf =>
    have hc1 : c1 = { c with cnt := c.cnt + 1 } := constructElem_some_ctr fails c x y c1 hf
    split at h
    next hm =>
      simp only [Except.ok.injEq, Prod.mk.injEq] at h
      obtain ⟨-, h2⟩ := h
      subst h2
      refine ⟨fun _ => ?_, fun hm2 => by rw [hm] at hm2; cases hm2⟩
      rcases hp1 : uninitializedMoveN vec.data.buffer 0
          (slotSet (RawMemory.allocate (if vec.size = 0 then 1 else vec.size * 2)).buffer
            pos (some y)) 0 pos c1 with ⟨b1, c2⟩
      have e1 := uninitializedMoveN_ctr vec.data.buffer pos
        (slotSet (RawMemory.allocate (if vec.size = 0 then 1 else vec.size * 2)).buffer
          pos (some y)) 0 0 c1
        (fun k hk => by simpa using hlive k (by omega))
      have hc2 : c2 = ⟨c1.cnt + pos, c1.copies, c1.moves + pos⟩ := by
        rw [← e1, hp1]
      have e2 := uninitializedMoveN_ctr vec.data.buffer (vec.size - pos) b1 pos (pos + 1) c2
        (fun k hk => hlive (pos + k) (by omega))
      simp only [hp1]
      constructor
      · show (uninitializedMoveN vec.data.buffer pos b1 (pos + 1) (vec.size - pos) c2).2.moves =
          c.moves + vec.size
        rw [e2]
        show c2.moves + (vec.size - pos) = c.moves + vec.size
        rw [hc2]
        show c1.moves + pos + (vec.size - pos) = c.moves + vec.size
        rw [hc1]
        show c.moves + pos + (vec.size - pos) = c.moves + vec.size
        omega
      · show (uninitializedMoveN vec.data.buffer pos b1 (pos + 1) (vec.size - pos) c2).2.copies =
          c.copies
        rw [e2]
        show c2.copies = c.copies
        rw [hc2]
        show c1.copies = c.copies
        rw [hc1]
    next hm =>
      have hm' : usesMovePath tf = false := by simpa using hm
      split at h
      next b c2 hcp => exact absurd h (by simp)
      next nb1 c2 hcp =>
        split at h
        next b c3 hcs => exact absurd h (by simp)
        next nb2 c3 hcs =>
          simp only [Except.ok.injEq, Prod.mk.injEq] at h
          obtain ⟨-, h2⟩ := h
          subst h2
          have e1 := uninitializedCopyN_ok_ctr fails vec.data.buffer pos _ 0 0 c1 nb1 c2 hcp
            (fun k hk => by simpa using hlive k (by omega))
          have e2 := uninitializedCopyN_ok_ctr fails vec.data.buffer (vec.size - pos) nb1
            pos (pos + 1) c2 nb2 c3 hcs
            (fun k hk => hlive (pos + k) (by omega))
          refine ⟨fun hm2 => (by rw [hm'] at hm2; cases hm2), fun _ => ?_⟩
          constructor
          · rw [e2]
            show c2.copies + (vec.size - pos) = c.copies + vec.size
            rw [e1]
            show c1.copies + pos + (vec.size - pos) = c.copies + vec.size
            rw [hc1]
            show c.copies + pos + (vec.size - pos) = c.copies + vec.size
            omega
          · rw [e2]
            show c2.moves = c.moves
            rw [e1]
            show c1.moves = c.moves
            rw [hc1]

/-- C6: whenever a reallocation (`Reserve` into a larger block, an append at
full capacity, a positional emplace at full capacity) relocates the live
elements into the new storage, they are move-constructed exactly when the
element type's move construction cannot throw or the type is not
copy-constructible, and copy-constructed otherwise — observed through the
move-construction and copy-construction counters. -/
theorem claim_C6_transfer_policy (α : Type) :
    (∀ (tf : TraitFlags) (fails : Nat → Bool) (vec : Vector α) (n : Nat) (c : Ctr)
        (v' : Vector α) (c' : Ctr),
      (∀ k, k < vec.Size → (slotGet vec.data.buffer k).isSome = true) →
      vec.Capacity < n →
      Vector.Reserve tf fails vec n c = .ok (v', c') →
      ((tf.nothrowMoveConstructible || !tf.copyConstructible) = true →
        c'.moves = c.moves + vec.Size ∧ c'.copies = c.copies) ∧
      ((tf.nothrowMoveConstructible || !tf.copyConstructible) = false →
        c'.copies = c.copies + vec.Size ∧ c'.moves = c.moves)) ∧
    (∀ (tf : TraitFlags) (fails : Nat → Bool) (vec : Vector α) (x : α) (c : Ctr)
        (v' : Vector α) (c' : Ctr),
      (∀ k, k < vec.Size → (slotGet vec.data.buffer k).isSome = true) →
      vec.Size = vec.Capacity →
      Vector.EmplaceBack tf fails vec x c = .ok (v', c') →
      ((tf.nothrowMoveConstructible || !tf.copyConstructible) = true →
        c'.moves = c.moves + vec.Size ∧ c'.copies = c.copies) ∧
      ((tf.nothrowMoveConstructible || !tf.copyConstructible) = false →
        c'.copies = c.copies + vec.Size ∧ c'.moves = c.moves)) ∧
    (∀ (tf : TraitFlags) (fails : Nat → Bool) (vec : Vector α) (pos : Nat) (x : α) (c : Ctr)
        (v' : Vector α) (c' : Ctr),
      (∀ k, k < vec.Size → (slotGet vec.data.buffer k).isSome = true) →
      vec.Size = vec.Capacity → pos ≤ vec.Size →
      Vector.Emplace tf fails vec pos x c = .ok (v', c') →
      ((tf.nothrowMoveConstructible || !tf.copyConstructible) = true →
        c'.moves = c.moves + vec.Size ∧ c'.copies = c.copies) ∧
      ((tf.nothrowMoveConstructible || !tf.copyConstructible) = false →
        c'.copies = c.copies + vec.Size ∧ c'.moves = c.moves)) := by
  refine ⟨?_, ?_, ?_⟩
  · intro tf fails vec n c v' c' hlive hgt h
    simp only [Vector.Reserve] at h
    rw [if_neg (by omega : ¬ n ≤ vec.Capacity)] at h
    split at h
    next b c1 hmoc => exact absurd h (by simp)
    next nb c1 hmoc =>
      simp only [Except.ok.injEq, Prod.mk.injEq] at h
      obtain ⟨-, h2⟩ := h
      subst h2
      obtain ⟨m1, m2⟩ := MoveOrCopyData_ok_ctr tf fails vec.data.buffer _ vec.size c nb c1 hmoc
        (fun k hk => hlive k hk)
      exact ⟨fun hm => by rw [m1 hm]; exact ⟨rfl, rfl⟩,
        fun hm => by rw [m2 hm]; exact ⟨rfl, rfl⟩⟩
  · intro tf fails vec x c v' c' hlive hfull h
    simp only [Vector.EmplaceBack] at h
    rw [if_pos (show vec.size = vec.Capacity from hfull)] at h
    split at h
    next => exact absurd h (by simp)
    next y c1 hf =>
      have hc1 : c1 = { c with cnt := c.cnt + 1 } := constructElem_some_ctr fails c x y c1 hf
      split at h
      next b c2 hmoc => exact absurd h (by simp)
      next nb c2 hmoc =>
        simp only [Except.ok.injEq, Prod.mk.injEq] at h
        obtain ⟨-, h2⟩ := h
        subst h2
        obtain ⟨m1, m2⟩ := MoveOrCopyData_ok_ctr tf fails vec.data.buffer _ vec.size c1 nb c2 hmoc
          (fun k hk => hlive k hk)
        constructor
        · intro hm
          rw [m1 hm, hc1]
          exact ⟨rfl, rfl⟩
        · intro hm
          rw [m2 hm, hc1]
          exact ⟨rfl, rfl⟩
  · intro tf fails vec pos x c v' c' hlive hfull hpos h
    simp only [Vector.Emplace] at h
    rw [if_pos (show vec.size = vec.Capacity from hfull)] at h
    exact EmplaceRealloc_ok_ctr tf fails vec pos x c v' c'
      (fun k hk => hlive k hk) hpos h

/-- Witness for C6 on a two-element vector at full capacity: a copy-path
`Reserve(5)` performs two copy constructions and no move; a move-path
`EmplaceBack` performs two move constructions and no copy; a copy-path
`Emplace` performs two copy constructions and no move. -/
theorem claim_C6_witness :
    ((⟨2, 2, 0⟩ : Ctr).copies = (⟨0, 0, 0⟩ : Ctr).copies +
        (⟨⟨[some 1, some 2]⟩, 2⟩ : Vector Nat).Size ∧
      (⟨2, 2, 0⟩ : Ctr).moves = (⟨0, 0, 0⟩ : Ctr).moves) ∧
    ((⟨3, 0, 2⟩ : Ctr).moves = (⟨0, 0, 0⟩ : Ctr).moves +
        (⟨⟨[some 1, some 2]⟩, 2⟩ : Vector Nat).Size ∧
      (⟨3, 0, 2⟩ : Ctr).copies = (⟨0, 0, 0⟩ : Ctr).copies) ∧
    ((⟨3, 2, 0⟩ : Ctr).copies = (⟨0, 0, 0⟩ : Ctr).copies +
        (⟨⟨[some 1, some 2]⟩, 2⟩ : Vector Nat).Size ∧
      (⟨3, 2, 0⟩ : Ctr).moves = (⟨0, 0, 0⟩ : Ctr).moves) :=
  ⟨((claim_C6_transfer_policy Nat).1 ⟨false, true⟩ noFail ⟨⟨[some 1, some 2]⟩, 2⟩ 5
      ⟨0, 0, 0⟩ _ _ (by decide) (by decide) rfl).2 rfl,
   ((claim_C6_transfer_policy Nat).2.1 ⟨true, true⟩ noFail ⟨⟨[some 1, some 2]⟩, 2⟩ 9
      ⟨0, 0, 0⟩ _ _ (by decide) (by decide) rfl).1 rfl,
   ((claim_C6_transfer_policy Nat).2.2 ⟨false, true⟩ noFail ⟨⟨[some 1, some 2]⟩, 2⟩ 1 9
      ⟨0, 0, 0⟩ _ _ (by decide) (by decide) (by decide) rfl).2 rfl⟩

theorem emplaceMoveShift_len (vec : Vector α) (index : Nat) :
    (emplaceMoveShift vec index).length = vec.data.buffer.length := by
  simp only [emplaceMoveShift, length_slotSet]
  rw [(moveBackwardShift_spec (vec.size - index)
    (slotSet vec.data.buffer vec.size (slotGet vec.data.buffer (vec.size - 1))) index).1,
    length_slotSet]

theorem assignCopy_wf (fails : Nat → Bool) (sp : Bool) (a b : Vector α) (c : Ctr)
    (hwa : a.size ≤ a.data.buffer.length) :
    (∀ (v : Vector α) (c' : Ctr),
      Vector.assignCopy fails sp a b c = .ok (v, c') → v.size ≤ v.data.buffer.length) ∧
    (∀ (v : Vector α) (c' : Ctr),
      Vector.assignCopy fails sp a b c = .error (v, c') → v.size ≤ v.data.buffer.length) := by
  simp only [Vector.assignCopy]
  split
  next =>
    constructor
    · intro v c' h
      simp only [Except.ok.injEq, Prod.mk.injEq] at h
      obtain ⟨h1, -⟩ := h
      rw [← h1]
      exact hwa
    · intro v c' h
      exact absurd h (by simp)
  next =>
    split
    next hbig =>
      constructor
      · intro v c' h
        split at h
        next c1 hcc => exact absurd h (by simp)
        next rhsCopy c1 hcc =>
          simp only [Except.ok.injEq, Prod.mk.injEq] at h
          obtain ⟨h1, -⟩ := h
          rw [← h1]
          obtain ⟨p1, p2, -⟩ := copyCtor_ok_spec fails b c rhsCopy c1 hcc
          show rhsCopy.size ≤ rhsCopy.data.buffer.length
          omega
      · intro v c' h
        split at h
        next c1 hcc =>
          simp only [Except.error.injEq, Prod.mk.injEq] at h
          obtain ⟨h1, -⟩ := h
          rw [← h1]
          exact hwa
        next rhsCopy c1 hcc => exact absurd h (by simp)
    next hbig =>
      have hfit : b.size ≤ a.data.buffer.length := by
        have : a.data.Capacity = a.data.buffer.length := rfl
        omega
      split
      next hle =>
        obtain ⟨d1, -, -⟩ := destroyN_spec (α := α) (a.size - b.size) a.data.buffer b.size
        constructor
        · intro v c' h
          split at h
          next bb c1 hca => exact absurd h (by simp)
          next bb c1 hca =>
            simp only [Except.ok.injEq, Prod.mk.injEq] at h
            obtain ⟨h1, -⟩ := h
            rw [← h1]
            obtain ⟨l1, -, -⟩ :=
              copyAssignN_ok_spec fails b.data.buffer b.size
                (destroyN a.data.buffer b.size (a.size - b.size)) 0 0 c bb c1 hca
            show b.size ≤ bb.length
            rw [l1, d1]
            omega
        · intro v c' h
          split at h
          next bb c1 hca =>
            simp only [Except.error.injEq, Prod.mk.injEq] at h
            obtain ⟨h1, -⟩ := h
            rw [← h1]
            have := copyAssignN_error_len fails b.data.buffer b.size
              (destroyN a.data.buffer b.size (a.size - b.size)) 0 0 c bb c1 hca
            show a.size ≤ bb.length
            rw [this, d1]
            exact hwa
          next bb c1 hca => exact absurd h (by simp)
      next hgt =>
        constructor
        · intro v c' h
          split at h
          next bb c1 huc => exact absurd h (by simp)
          next b1 c1 huc =>
            obtain ⟨u1, -, -⟩ :=
              uninitializedCopyN_ok_spec fails b.data.buffer (b.size - a.size)
                a.data.buffer a.size a.size c b1 c1 huc
            split at h
            next bb c2 hca => exact absurd h (by simp)
            next b2 c2 hca =>
              simp only [Except.ok.injEq, Prod.mk.injEq] at h
              obtain ⟨h1, -⟩ := h
              rw [← h1]
              obtain ⟨l1, -, -⟩ :=
                copyAssignN_ok_spec fails b.data.buffer a.size b1 0 0 c1 b2 c2 hca
              show b.size ≤ b2.length
              rw [l1, u1]
              exact hfit
        · intro v c' h
          split at h
          next bb c1 huc =>
            simp only [Except.error.injEq, Prod.mk.injEq] at h
            obtain ⟨h1, -⟩ := h
            rw [← h1]
            have := uninitializedCopyN_error_len fails b.data.buffer (b.size - a.size)
              a.data.buffer a.size a.size c bb c1 huc
            show a.size ≤ bb.length
            rw [this]
            exact hwa
          next b1 c1 huc =>
            obtain ⟨u1, -, -⟩ :=
              uninitializedCopyN_ok_spec fails b.data.buffer (b.size - a.size)
                a.data.buffer a.size a.size c b1 c1 huc
            split at h
            next bb c2 hca =>
              simp only [Except.error.injEq, Prod.mk.injEq] at h
              obtain ⟨h1, -⟩ := h
              rw [← h1]
              have := copyAssignN_error_len fails b.data.buffer a.size b1 0 0 c1 bb c2 hca
              show a.size ≤ bb.length
              rw [this, u1]
              exact hwa
            next b2 c2 hca => exact absurd h (by simp)

theorem Resize_wf (tf : TraitFlags) (fails : Nat → Bool) (dflt : α)
    (vec : Vector α) (n : Nat) (c : Ctr)
    (hw : vec.size ≤ vec.data.buffer.length) :
    (∀ (v : Vector α) (c' : Ctr),
      Vector.Resize tf fails dflt vec n c = .ok (v, c') → v.size ≤ v.data.buffer.length) ∧
    (∀ (v : Vector α) (c' : Ctr),
      Vector.Resize tf fails dflt vec n c = .error (v, c') → v.size ≤ v.data.buffer.length) := by
  simp only [Vector.Resize]
  split
  next hshr =>
    obtain ⟨d1, -, -⟩ := destroyN_spec (α := α) (vec.size - n) vec.data.buffer n
    constructor
    · intro v c' h
      simp only [Except.ok.injEq, Prod.mk.injEq] at h
      obtain ⟨h1, -⟩ := h
      rw [← h1]
      show n ≤ (destroyN vec.data.buffer n (vec.size - n)).length
      rw [d1]
      omega
    · intro v c' h
      exact absurd h (by simp)
  next hshr =>
    constructor
    · intro v c' h
      split at h
      next e hres => exact absurd h (by simp)
      next v1 c1 hres =>
        obtain ⟨r1, r2, -⟩ := Reserve_ok_spec tf fails vec n c v1 c1 hw hres
        split at h
        next bb c2 hvc => exact absurd h (by simp)
        next bb c2 hvc =>
          simp only [Except.ok.injEq, Prod.mk.injEq] at h
          obtain ⟨h1, -⟩ := h
          rw [← h1]
          obtain ⟨q1, -, -⟩ :=
            uninitializedValueConstructN_ok_spec fails dflt (n - vec.size)
              v1.data.buffer vec.size c1 bb c2 hvc
          show n ≤ bb.length
          rw [q1, r2]
          omega
    · intro v c' h
      split at h
      next e hres =>
        simp only [Except.error.injEq] at h
        rw [h] at hres
        have := Reserve_error_eq tf fails vec n c v c' hres
        rw [this]
        exact hw
      next v1 c1 hres =>
        obtain ⟨r1, r2, -⟩ := Reserve_ok_spec tf fails vec n c v1 c1 hw hres
        split at h
        next bb c2 hvc =>
          simp only [Except.error.injEq, Prod.mk.injEq] at h
          obtain ⟨h1, -⟩ := h
          rw [← h1]
          have := uninitializedValueConstructN_error_len fails dflt (n - vec.size)
            v1.data.buffer vec.size c1 bb c2 hvc
          show vec.size ≤ bb.length
          rw [this, r2]
          omega
        next bb c2 hvc => exact absurd h (by simp)

theorem Emplace_ok_wf (tf : TraitFlags) (fails : Nat → Bool)
    (vec : Vector α) (pos : Nat) (x : α) (c : Ctr) (v : Vector α) (c' : Ctr)
    (hw : vec.size ≤ vec.data.buffer.length)
    (h : Vector.Emplace tf fails vec pos x c = .ok (v, c')) :
    v.size ≤ v.data.buffer.length := by
  simp only [Vector.Emplace] at h
  split at h
  next hfull =>
    simp only [Vector.EmplaceRealloc] at h
    split at h
    next c1 hf => exact absurd h (by simp)
    next y c1 hf =>
      have hN : vec.size + 1 ≤ (if vec.size = 0 then 1 else vec.size * 2) := by
        by_cases h0 : vec.size = 0
        · simp [h0]
        · simp only [h0, if_false]; omega
      have hnb0 : (slotSet (RawMemory.allocate
          (if vec.size = 0 then 1 else vec.size * 2) : RawMemory α).buffer
          pos (some y)).length = (if vec.size = 0 then 1 else vec.size * 2) := by
        rw [length_slotSet]
        simp [RawMemory.allocate]
      split at h
      next hm =>
        rcases hp1 : uninitializedMoveN vec.data.buffer 0
            (slotSet (RawMemory.allocate
              (if vec.size = 0 then 1 else vec.size * 2)).buffer pos (some y)) 0 pos c1
          with ⟨b1, c2⟩
        have hb1 : b1.length = (if vec.size = 0 then 1 else vec.size * 2) := by
          have := (uninitializedMoveN_spec vec.data.buffer pos
            (slotSet (RawMemory.allocate
              (if vec.size = 0 then 1 else vec.size * 2)).buffer pos (some y)) 0 0 c1).1
          rw [hp1] at this
          rw [show ((b1, c2).1 : Buf α) = b1 from rfl] at this
          rw [this, hnb0]
        simp only [hp1] at h
        simp only [Except.ok.injEq, Prod.mk.injEq] at h
        obtain ⟨h1, -⟩ := h
        rw [← h1]
        show vec.size + 1 ≤
          (uninitializedMoveN vec.data.buffer pos b1 (pos + 1) (vec.size - pos) c2).1.length
        rw [(uninitializedMoveN_spec vec.data.buffer (vec.size - pos) b1 pos (pos + 1) c2).1,
          hb1]
        exact hN
      next hm =>
        split at h
        next bb c2 hcp => exact absurd h (by simp)
        next nb1 c2 hcp =>
          obtain ⟨l1, -, -⟩ :=
            uninitializedCopyN_ok_spec fails vec.data.buffer pos _ 0 0 c1 nb1 c2 hcp
          split at h
          next bb c3 hcs => exact absurd h (by simp)
          next nb2 c3 hcs =>
            obtain ⟨l2, -, -⟩ :=
              uninitializedCopyN_ok_spec fails vec.data.buffer (vec.size - pos) nb1
                pos (pos + 1) c2 nb2 c3 hcs
            simp only [Except.ok.injEq, Prod.mk.injEq] at h
            obtain ⟨h1, -⟩ := h
            rw [← h1]
            show vec.size + 1 ≤ nb2.length
            rw [l2, l1, hnb0]
            exact hN
  next hfull =>
    have hVC : vec.Capacity = vec.data.buffer.length := rfl
    have hlt : vec.size < vec.data.buffer.length := by omega
    simp only [Vector.EmplaceMove] at h
    split at h
    next c2 hf => exact absurd h (by simp)
    next y c2 hf =>
      simp only [Except.ok.injEq, Prod.mk.injEq] at h
      obtain ⟨h1, -⟩ := h
      rw [← h1]
      show vec.size + 1 ≤ (slotSet
        (if vec.size ≠ 0 then emplaceMoveShift vec pos else vec.data.buffer)
        pos (some y)).length
      rw [length_slotSet]
      have hlen : (if vec.size ≠ 0 then emplaceMoveShift vec pos
          else vec.data.buffer).length = vec.data.buffer.length := by
        split
        · exact emplaceMoveShift_len vec pos
        · rfl
      rw [hlen]
      omega

theorem Emplace_error_wf (tf : TraitFlags) (fails : Nat → Bool)
    (vec : Vector α) (pos : Nat) (x : α) (c : Ctr) (v : Vector α) (c' : Ctr)
    (hw : vec.size ≤ vec.data.buffer.length)
    (h : Vector.Emplace tf fails vec pos x c = .error (v, c')) :
    v.size ≤ v.data.buffer.length := by
  simp only [Vector.Emplace] at h
  split at h
  next hfull =>
    have := EmplaceRealloc_error_eq tf fails vec pos x c v c' h
    rw [this]
    exact hw
  next hfull =>
    simp only [Vector.EmplaceMove] at h
    split at h
    next c2 hf =>
      simp only [Except.error.injEq, Prod.mk.injEq] at h
      obtain ⟨h1, -⟩ := h
      rw [← h1]
      show vec.size ≤ (if vec.size ≠ 0 then emplaceMoveShift vec pos
        else vec.data.buffer).length
      have hlen : (if vec.size ≠ 0 then emplaceMoveShift vec pos
          else vec.data.buffer).length = vec.data.buffer.length := by
        split
        · exact emplaceMoveShift_len vec pos
        · rfl
      rw [hlen]
      exact hw
    next y c2 hf => exact absurd h (by simp)

/-- The states a `Vector` object can be in after any finite run of the
container's public operations, starting from the default constructor.
Operations that throw contribute the state the object holds after stack
unwinding (the error payload); constructors that throw construct no object.
`PushBack` and `Insert` delegate to `EmplaceBack` and `Emplace` and are
covered by those cases. -/
inductive Reachable : Vector α → Prop where
  | dflt : Reachable Vector.default
  | sized (fails : Nat → Bool) (d : α) (n : Nat) (c : Ctr) (v : Vector α) (c' : Ctr) :
      Vector.sizedCtor fails d n c = .ok (v, c') → Reachable v
  | copied (fails : Nat → Bool) (u : Vector α) (c : Ctr) (v : Vector α) (c' : Ctr) :
      Reachable u → Vector.copyCtor fails u c = .ok (v, c') → Reachable v
  | moveCtorDst (u : Vector α) : Reachable u → Reachable (Vector.moveCtor u).1
  | moveCtorSrc (u : Vector α) : Reachable u → Reachable (Vector.moveCtor u).2
  | moveAssignDst (a b : Vector α) : Reachable a → Reachable b →
      Reachable (Vector.moveAssign a b).1
  | moveAssignSrc (a b : Vector α) : Reachable a → Reachable b →
      Reachable (Vector.moveAssign a b).2
  | swapFst (a b : Vector α) : Reachable a → Reachable b → Reachable (Vector.Swap a b).1
  | swapSnd (a b : Vector α) : Reachable a → Reachable b → Reachable (Vector.Swap a b).2
  | assignOk (fails : Nat → Bool) (sp : Bool) (a b : Vector α) (c : Ctr)
      (v : Vector α) (c' : Ctr) : Reachable a → Reachable b →
      Vector.assignCopy fails sp a b c = .ok (v, c') → Reachable v
  | assignErr (fails : Nat → Bool) (sp : Bool) (a b : Vector α) (c : Ctr)
      (v : Vector α) (c' : Ctr) : Reachable a → Reachable b →
      Vector.assignCopy fails sp a b c = .error (v, c') → Reachable v
  | reserveOk (tf : TraitFlags) (fails : Nat → Bool) (u : Vector α) (n : Nat) (c : Ctr)
      (v : Vector α) (c' : Ctr) : Reachable u →
      Vector.Reserve tf fails u n c = .ok (v, c') → Reachable v
  | reserveErr (tf : TraitFlags) (fails : Nat → Bool) (u : Vector α) (n : Nat) (c : Ctr)
      (v : Vector α) (c' : Ctr) : Reachable u →
      Vector.Reserve tf fails u n c = .error (v, c') → Reachable v
  | resizeOk (tf : TraitFlags) (fails : Nat → Bool) (d : α) (u : Vector α) (n : Nat)
      (c : Ctr) (v : Vector α) (c' : Ctr) : Reachable u →
      Vector.Resize tf fails d u n c = .ok (v, c') → Reachable v
  | resizeErr (tf : TraitFlags) (fails : Nat → Bool) (d : α) (u : Vector α) (n : Nat)
      (c : Ctr) (v : Vector α) (c' : Ctr) : Reachable u →
      Vector.Resize tf fails d u n c = .error (v, c') → Reachable v
  | emplaceBackOk (tf : TraitFlags) (fails : Nat → Bool) (u : Vector α) (x : α) (c : Ctr)
      (v : Vector α) (c' : Ctr) : Reachable u →
      Vector.EmplaceBack tf fails u x c = .ok (v, c') → Reachable v
  | emplaceBackErr (tf : TraitFlags) (fails : Nat → Bool) (u : Vector α) (x : α) (c : Ctr)
      (v : Vector α) (c' : Ctr) : Reachable u →
      Vector.EmplaceBack tf fails u x c = .error (v, c') → Reachable v
  | popBack (u : Vector α) : Reachable u → Reachable (Vector.PopBack u)
  | emplaceOk (tf : TraitFlags) (fails : Nat → Bool) (u : Vector α) (pos : Nat) (x : α)
      (c : Ctr) (v : Vector α) (c' : Ctr) : Reachable u →
      Vector.Emplace tf fails u pos x c = .ok (v, c') → Reachable v
  | emplaceErr (tf : TraitFlags) (fails : Nat → Bool) (u : Vector α) (pos : Nat) (x : α)
      (c : Ctr) (v : Vector α) (c' : Ctr) : Reachable u →
      Vector.Emplace tf fails u pos x c = .error (v, c') → Reachable v
  | erased (u : Vector α) (pos : Nat) : Reachable u → Reachable (Vector.Erase u pos)

/-- C9: `size ≤ capacity` holds for a default-constructed vector and is
preserved by every operation of the container — construction, copy and move
assignment, `Reserve`, `Resize`, `EmplaceBack`/`PushBack`, `PopBack`,
`Emplace`/`Insert`, `Erase` and `Swap` — on both normal and throwing runs:
no reachable state violates it. -/
theorem claim_C9_invariant (α : Type) :
    ∀ v : Vector α, Reachable v → v.Size ≤ v.Capacity := by
  intro v hr
  induction hr with
  | dflt => exact Nat.le_refl 0
  | sized fails d n c v c' h =>
    simp only [Vector.sizedCtor] at h
    split at h
    next bb c1 hvc => exact absurd h (by simp)
    next bb c1 hvc =>
      simp only [Except.ok.injEq, Prod.mk.injEq] at h
      obtain ⟨h1, -⟩ := h
      rw [← h1]
      show n ≤ bb.length
      obtain ⟨q1, -, -⟩ :=
        uninitializedValueConstructN_ok_spec fails d n (RawMemory.allocate n).buffer 0 c
          bb c1 hvc
      rw [q1]
      simp [RawMemory.allocate]
  | copied fails u c v c' hru h ih =>
    obtain ⟨p1, p2, -⟩ := copyCtor_ok_spec fails u c v c' h
    show v.size ≤ v.data.buffer.length
    omega
  | moveCtorDst u hru ih => exact ih
  | moveCtorSrc u hru ih => exact Nat.le_refl 0
  | moveAssignDst a b hra hrb iha ihb => exact ihb
  | moveAssignSrc a b hra hrb iha ihb => exact iha
  | swapFst a b hra hrb iha ihb => exact ihb
  | swapSnd a b hra hrb iha ihb => exact iha
  | assignOk fails sp a b c v c' hra hrb h iha ihb =>
    exact (assignCopy_wf fails sp a b c iha).1 v c' h
  | assignErr fails sp a b c v c' hra hrb h iha ihb =>
    exact (assignCopy_wf fails sp a b c iha).2 v c' h
  | reserveOk tf fails u n c v c' hru h ih =>
    obtain ⟨r1, r2, -⟩ := Reserve_ok_spec tf fails u n c v c' ih h
    show v.size ≤ v.data.buffer.length
    have ih' : u.size ≤ u.data.buffer.length := ih
    omega
  | reserveErr tf fails u n c v c' hru h ih =>
    rw [Reserve_error_eq tf fails u n c v c' h]
    exact ih
  | resizeOk tf fails d u n c v c' hru h ih =>
    exact (Resize_wf tf fails d u n c ih).1 v c' h
  | resizeErr tf fails d u n c v c' hru h ih =>
    exact (Resize_wf tf fails d u n c ih).2 v c' h
  | emplaceBackOk tf fails u x c v c' hru h ih =>
    exact (EmplaceBack_ok_spec tf fails u x c v c' ih h).2.1
  | emplaceBackErr tf fails u x c v c' hru h ih =>
    rw [EmplaceBack_error_eq tf fails u x c v c' h]
    exact ih
  | popBack u hru ih =>
    show u.size - 1 ≤ (slotSet u.data.buffer (u.size - 1) none).length
    rw [length_slotSet]
    have ih' : u.size ≤ u.data.buffer.length := ih
    omega
  | emplaceOk tf fails u pos x c v c' hru h ih =>
    exact Emplace_ok_wf tf fails u pos x c v c' ih h
  | emplaceErr tf fails u pos x c v c' hru h ih =>
    exact Emplace_error_wf tf fails u pos x c v c' ih h
  | erased u pos hru ih =>
    show u.size - 1 ≤ (slotSet (moveForwardShift u.data.buffer pos (u.size - pos - 1))
      (u.size - 1) none).length
    rw [length_slotSet, (moveForwardShift_spec (u.size - pos - 1) u.data.buffer pos).1]
    have ih' : u.size ≤ u.data.buffer.length := ih
    omega

/-- Witness for C9: the vector reached by one successful append to the
default-constructed vector satisfies the invariant. -/
theorem claim_C9_witness :
    (⟨⟨[some 5]⟩, 1⟩ : Vector Nat).Size ≤ (⟨⟨[some 5]⟩, 1⟩ : Vector Nat).Capacity :=
  claim_C9_invariant Nat _
    (Reachable.emplaceBackOk ⟨true, true⟩ noFail Vector.default 5 ⟨0, 0, 0⟩
      ⟨⟨[some 5]⟩, 1⟩ ⟨1, 0, 0⟩ Reachable.dflt rfl)

end CppVec
